import Mathlib

/-!
# GmbDataPoller: change detection, history and notification routing

A shallow embedding of `src/index.mjs`: the deterministic serializer
`stableStringify`, the location diff loop and change router of
`syncLocationDetailsToDatabase`, the field-name humanizer `prettify`, and the
review comparator of `syncReviewsToDatabase`.

JavaScript values are embedded as the inductive type `JSValue`.  Strings are
Lean strings (well-formed Unicode); a finite number is given by the shortest
decimal numeral that names it, the one `JSON.stringify` prints; an object is the
list of its own enumerable properties in enumeration order.  The record store, the queue
and the clock are not part of the program: what a query answers is an input of
the embedded function, and every write or send is an entry of the effect list
it returns.  The built-ins `JSON.parse`, `String.prototype.toUpperCase` and the
parsing of dates are parameters of the functions that call them.
-/

namespace GmbDataPoller

/-! ## Values -/

/-- A JavaScript value.  A finite number is given by the shortest decimal
numeral that names it: `num n` when that numeral is an integer `n` below `10^21`
in magnitude, and otherwise `dec negative digits exponent`, which is the number
`0.d1d2...dk * 10^exponent` for the decimal digits `d1 d2 ... dk` of `digits`
(the integers `s` and `n` of `Number::toString`).  `date iso` is a `Date` object
whose `toISOString()` gives `iso` (`none` for an invalid date); `fn name` is a
function object, which this program only meets as an inherited member of
`Object.prototype`. -/
inductive JSValue where
  | undefined : JSValue
  | null : JSValue
  | bool (b : Bool) : JSValue
  | num (n : Int) : JSValue
  | str (s : String) : JSValue
  | arr (items : List JSValue) : JSValue
  | obj (entries : List (String × JSValue)) : JSValue
  | date (iso : Option String) : JSValue
  | fn (name : String) : JSValue
  | dec (negative : Bool) (digits : Nat) (exponent : Int) : JSValue

/-- A record: the own enumerable properties of a plain object, in enumeration
order. -/
abbrev Row := List (String × JSValue)

/-- An exception thrown by the embedded code. -/
inductive JSError where
  | typeError (what : String) : JSError
  | rangeError (what : String) : JSError
deriving DecidableEq

/-! ## Strings: UTF-16 code units, key order, JSON quoting -/

/-- The UTF-16 code units of one character. -/
def utf16Units (c : Char) : List Nat :=
  if c.toNat < 65536 then [c.toNat]
  else [55296 + (c.toNat - 65536) / 1024, 56320 + (c.toNat - 65536) % 1024]

/-- The UTF-16 code units of a string, the sequence JavaScript compares. -/
def toUTF16 : List Char → List Nat
  | [] => []
  | c :: cs => utf16Units c ++ toUTF16 cs

/-- Lexicographic "less than or equal" on code-unit sequences. -/
def codeUnitsLe : List Nat → List Nat → Bool
  | [], _ => true
  | _ :: _, [] => false
  | a :: as, b :: bs =>
    if a < b then true else if b < a then false else codeUnitsLe as bs

/-- The order `Array.prototype.sort()` uses without a comparator: strings by
their UTF-16 code units. -/
def keyLe (a b : String) : Prop := codeUnitsLe (toUTF16 a.data) (toUTF16 b.data) = true

instance : DecidableRel keyLe := fun a b =>
  inferInstanceAs (Decidable (codeUnitsLe (toUTF16 a.data) (toUTF16 b.data) = true))

/-- The call `Object.keys(obj).sort()` on the list of keys. -/
def sortKeys (keys : List String) : List String := List.insertionSort keyLe keys

/-- One lower-case hexadecimal digit. -/
def hexDigit (n : Nat) : Char :=
  if n < 10 then Char.ofNat (48 + n) else Char.ofNat (87 + n)

/-- How `JSON.stringify` writes one character inside a string literal. -/
def escapeChar (c : Char) : List Char :=
  if c.toNat = 34 then [Char.ofNat 92, Char.ofNat 34]
  else if c.toNat = 92 then [Char.ofNat 92, Char.ofNat 92]
  else if c.toNat = 8 then [Char.ofNat 92, Char.ofNat 98]
  else if c.toNat = 12 then [Char.ofNat 92, Char.ofNat 102]
  else if c.toNat = 10 then [Char.ofNat 92, Char.ofNat 110]
  else if c.toNat = 13 then [Char.ofNat 92, Char.ofNat 114]
  else if c.toNat = 9 then [Char.ofNat 92, Char.ofNat 116]
  else if c.toNat < 32 then
    [Char.ofNat 92, Char.ofNat 117, Char.ofNat 48, Char.ofNat 48,
      hexDigit (c.toNat / 16), hexDigit (c.toNat % 16)]
  else [c]

/-- The characters of a string with every one escaped. -/
def escapeChars : List Char → List Char
  | [] => []
  | c :: cs => escapeChar c ++ escapeChars cs

/-- The text `JSON.stringify(s)` for a string `s`: the quoted, escaped literal. -/
def quote (s : String) : String :=
  String.mk (Char.ofNat 34 :: (escapeChars s.data ++ [Char.ofNat 34]))

/-- The method `Array.prototype.join(sep)` on strings. -/
def joinWith (sep : String) : List String → String
  | [] => ""
  | [s] => s
  | s :: t :: rest => s ++ sep ++ joinWith sep (t :: rest)

/-- The text of a number whose shortest decimal numeral is an integer below
`10^21` in magnitude: that numeral. -/
def numText (n : Int) : String := toString n

/-- A run of zeros. -/
def zeros (n : Nat) : List Char := List.replicate n (Char.ofNat 48)

/-- The exponent part after the letter `e`: a sign and the decimal digits. -/
def exponentText (e : Int) : List Char :=
  (if e < 0 then Char.ofNat 45 else Char.ofNat 43) :: (Nat.repr e.natAbs).data

/-- The text of a positive number by `Number::toString`, from the digits `s`
of its shortest decimal numeral and the exponent `n`, with `k` the number of
digits: the digits followed by `n - k` zeros when `k <= n <= 21`; the digits with
a point after the first `n` when `0 < n <= 21`; `0.` and `-n` zeros before the
digits when `-6 < n <= 0`; and otherwise the exponent form, with a point after
the first digit when there are more. -/
def decimalBody (s : Nat) (n : Int) : List Char :=
  if ((Nat.repr s).data.length : Int) ≤ n ∧ n ≤ 21 then
    (Nat.repr s).data ++ zeros (n - ((Nat.repr s).data.length : Int)).toNat
  else if 0 < n ∧ n ≤ 21 then
    (Nat.repr s).data.take n.toNat ++ Char.ofNat 46 :: (Nat.repr s).data.drop n.toNat
  else if -6 < n ∧ n ≤ 0 then
    Char.ofNat 48 :: Char.ofNat 46 :: (zeros (-n).toNat ++ (Nat.repr s).data)
  else
    match (Nat.repr s).data with
    | [] => []
    | [d] => d :: Char.ofNat 101 :: exponentText (n - 1)
    | d :: rest => d :: Char.ofNat 46 :: (rest ++ Char.ofNat 101 :: exponentText (n - 1))

/-- The text of a finite number by `Number::toString`: `0` for zero, and a
minus sign before the text of the magnitude for a negative number. -/
def decText (negative : Bool) (s : Nat) (n : Int) : String :=
  if s = 0 then "0"
  else String.mk ((if negative then [Char.ofNat 45] else []) ++ decimalBody s n)

/-! ## JSON.stringify and stableStringify -/

mutual
/-- The function `JSON.stringify(v)`; `none` is the result `undefined`. -/
def jsonStringify : JSValue → Option String
  | .undefined => none
  | .fn _ => none
  | .null => some "null"
  | .bool b => some (if b then "true" else "false")
  | .num n => some (numText n)
  | .dec negative s n => some (decText negative s n)
  | .str s => some (quote s)
  | .date (some iso) => some (quote iso)
  | .date none => some "null"
  | .arr items => some ("[" ++ joinWith "," (jsonItems items) ++ "]")
  | .obj entries => some ("\x7b" ++ joinWith "," (jsonMembers entries) ++ "\x7d")
/-- The texts of array elements: `undefined` and functions print as `null`. -/
def jsonItems : List JSValue → List String
  | [] => []
  | x :: xs => (jsonStringify x).getD "null" :: jsonItems xs
/-- The `key:value` texts of an object: members without a text are left out. -/
def jsonMembers : List (String × JSValue) → List String
  | [] => []
  | (k, v) :: es =>
    match jsonStringify v with
    | some t => (quote k ++ ":" ++ t) :: jsonMembers es
    | none => jsonMembers es
end

/-- The text `'' + x` appends for a value that is a string or `undefined`. -/
def concatText (t : Option String) : String := t.getD "undefined"

/-- The text `join` uses for an element that is a string or `undefined`. -/
def joinText (t : Option String) : String := t.getD ""

/-- Reading `obj[k]` in a table of already computed texts. -/
def lookupText (k : String) (parts : List (String × String)) : String :=
  (parts.lookup k).getD "undefined"

mutual
/-- The function `stableStringify(obj)` of `src/index.mjs`; `none` is the result
`undefined`. -/
def stableStringify : JSValue → Option String
  | .arr items => some ("[" ++ joinWith "," (stableItems items) ++ "]")
  | .obj entries =>
    some ("\x7b" ++ joinWith ","
      ((sortKeys (entries.map Prod.fst)).map
        (fun k => quote k ++ ":" ++ lookupText k (stableMembers entries))) ++ "\x7d")
  | .date _ => some "\x7b\x7d"
  | .undefined => jsonStringify .undefined
  | .null => jsonStringify .null
  | .bool b => jsonStringify (.bool b)
  | .num n => jsonStringify (.num n)
  | .dec negative s n => jsonStringify (.dec negative s n)
  | .str s => jsonStringify (.str s)
  | .fn name => jsonStringify (.fn name)
/-- The result of `obj.map(o => stableStringify(o))` as `join` reads it. -/
def stableItems : List JSValue → List String
  | [] => []
  | x :: xs => joinText (stableStringify x) :: stableItems xs
/-- The text `stableStringify(obj[k])` contributes for each own key `k`. -/
def stableMembers : List (String × JSValue) → List (String × String)
  | [] => []
  | (k, v) :: es => (k, concatText (stableStringify v)) :: stableMembers es
end


/-! ## Well-formed values and equality up to key order -/

mutual
/-- Every object inside the value has pairwise distinct keys, as every
JavaScript object has. -/
def wellFormed : JSValue → Bool
  | .arr items => wellFormedItems items
  | .obj entries => decide (entries.map Prod.fst).Nodup && wellFormedMembers entries
  | _ => true
/-- Every element is well formed. -/
def wellFormedItems : List JSValue → Bool
  | [] => true
  | x :: xs => wellFormed x && wellFormedItems xs
/-- Every member value is well formed. -/
def wellFormedMembers : List (String × JSValue) → Bool
  | [] => true
  | (_, v) :: es => wellFormed v && wellFormedMembers es
end

mutual
/-- The two values have the same content: equal primitives, arrays equal
element by element, objects with the same number of keys where every key of the
first has, in the second, a value of the same content (at any depth).  The order
of the keys plays no part. -/
def sameContent : JSValue → JSValue → Bool
  | .arr xs, b =>
    match b with
    | .arr ys => sameItems xs ys
    | _ => false
  | .obj es, b =>
    match b with
    | .obj fs => es.length == fs.length && sameMembers es fs
    | _ => false
  | .undefined, b => match b with | .undefined => true | _ => false
  | .null, b => match b with | .null => true | _ => false
  | .bool x, b => match b with | .bool y => x == y | _ => false
  | .num x, b => match b with | .num y => x == y | _ => false
  | .str x, b => match b with | .str y => x == y | _ => false
  | .date x, b => match b with | .date y => x == y | _ => false
  | .fn x, b => match b with | .fn y => x == y | _ => false
  | .dec neg s n, b =>
    match b with
    | .dec neg' s' n' => neg == neg' && s == s' && n == n'
    | _ => false
/-- Arrays of the same length with elements of the same content. -/
def sameItems : List JSValue → List JSValue → Bool
  | [], ys => ys.isEmpty
  | x :: xs, ys =>
    match ys with
    | y :: ys => sameContent x y && sameItems xs ys
    | [] => false
/-- Every member of the first list has, under its key in the second list, a
value of the same content. -/
def sameMembers : List (String × JSValue) → List (String × JSValue) → Bool
  | [], _ => true
  | (k, v) :: es, fs =>
    (match fs.lookup k with
      | some w => sameContent v w
      | none => false) && sameMembers es fs
end

/-! ## Property access, truthiness, `??` -/

/-- The members of `Object.prototype` that are functions; every plain object
inherits them. -/
def objectPrototypeFunctions : List String :=
  ["constructor", "__defineGetter__", "__defineSetter__", "hasOwnProperty",
    "__lookupGetter__", "__lookupSetter__", "isPrototypeOf", "propertyIsEnumerable",
    "toString", "valueOf", "toLocaleString"]

/-- The names a plain object answers without owning them. -/
def inheritedNames : List String := "__proto__" :: objectPrototypeFunctions

/-- The reads `v[k]` and `v?.k`.  On a plain object: the own property; failing that, the
member inherited from `Object.prototype` (a function, or for `__proto__` the
prototype itself, an object without enumerable keys); failing that,
`undefined`.  On `null` and `undefined` this is the answer of `?.`.  On any
other value the answer is `undefined`: that is right for every name this
program reads from fetched data, none of which is `length`, an index or a
member of a built-in prototype. -/
def getProp (v : JSValue) (k : String) : JSValue :=
  match v with
  | .obj entries =>
    match entries.lookup k with
    | some x => x
    | none =>
      if objectPrototypeFunctions.contains k then .fn k
      else if k == "__proto__" then .obj []
      else .undefined
  | _ => .undefined

/-- The test `v === null || v === undefined`. -/
def isNullish : JSValue → Bool
  | .undefined => true
  | .null => true
  | _ => false

/-- The read `v.k`, which throws on `null` and `undefined`. -/
def getPropStrict (v : JSValue) (k : String) : Except JSError JSValue :=
  if isNullish v then .error (.typeError ("cannot read property " ++ k))
  else .ok (getProp v k)

/-- The chain of reads `a?.k1?.k2 ...`. -/
def optPath (v : JSValue) : List String → JSValue
  | [] => v
  | k :: ks => optPath (getProp v k) ks

/-- The expression `v ?? null`. -/
def orNull (v : JSValue) : JSValue := if isNullish v then .null else v

/-- JavaScript truthiness. -/
def truthy : JSValue → Bool
  | .undefined => false
  | .null => false
  | .bool b => b
  | .num n => n != 0
  | .dec _ s _ => s != 0
  | .str s => s != ""
  | _ => true

/-- The call `items.map(p => p.k)` on the elements of an array. -/
def mapProp (k : String) : List JSValue → Except JSError (List JSValue)
  | [] => .ok []
  | p :: ps =>
    match getPropStrict p k with
    | .error e => .error e
    | .ok x =>
      match mapProp k ps with
      | .error e => .error e
      | .ok xs => .ok (x :: xs)

/-- The call `v?.map(p => p.k)`: `undefined` on `null` and `undefined`, the mapped array
on an array, a `TypeError` on anything else (it has no callable `map`). -/
def optMapProp (v : JSValue) (k : String) : Except JSError JSValue :=
  match v with
  | .undefined => .ok .undefined
  | .null => .ok .undefined
  | .arr items =>
    match mapProp k items with
    | .error e => .error e
    | .ok xs => .ok (.arr xs)
  | _ => .error (.typeError "map is not a function")

/-- A result of `JSON.stringify` or `stableStringify` as a value. -/
def textValue : Option String → JSValue
  | some s => .str s
  | none => .undefined

/-! ## The record store and the queue, as seen by the program -/

/-- The tables the program writes (`DatabaseTableConstants`). -/
inductive Table where
  | gmbLocation | gmbReview | history | notification
deriving DecidableEq

/-- The queues the program sends to (`LayerConstants`). -/
inductive Queue where
  | keywordStuffing | reviews | media
deriving DecidableEq

/-- A write or a send, in the order the program performs them. -/
inductive Effect where
  | send (queue : Queue) (messages : List JSValue) : Effect
  | insert (table : Table) (rows : List Row) : Effect
  | update (table : Table) (id : JSValue) (row : Row) : Effect

/-- What the record store answers during one run. -/
structure Store where
  /-- The location row with the given id, the answer of `.first()`. -/
  location : JSValue → Option Row
  /-- The count of live reviews of a location, after `parseInt(..., 10) || 0`. -/
  liveReviewCount : JSValue → Nat
  /-- The rows of the user/organization bridge table of one organization. -/
  usersOfOrganization : JSValue → List Row
  /-- The id `layerUtils.getNotificationTypeId` finds for
  `VOICE_OF_MERCHANT_UPDATED`. -/
  voiceOfMerchantTypeId : JSValue
  /-- What `existingReviewMap[reviewId]` holds for a location: the stored
  review row under that id, if any. -/
  review : JSValue → JSValue → Option Row

/-- The function `getUserIdsByOrganizationId(organizationId, knex)` (lines 41-49). -/
def getUserIdsByOrganizationId (organizationId : JSValue) (store : Store) : List JSValue :=
  if !truthy organizationId then []
  else (store.usersOfOrganization organizationId).map (fun row => getProp (.obj row) "user_id")

/-! ## syncLocationDetailsToDatabase -/

/-- The object `newData` built from the fetched location (lines 68-93). -/
def buildNewData (gmbLocationId gmbLocationData : JSValue) : Except JSError Row :=
  match optMapProp (optPath gmbLocationData ["serviceArea", "places", "placeInfos"])
      "placeName" with
  | .error e => .error e
  | .ok serviceAreas =>
    match optMapProp (optPath gmbLocationData ["categories", "additionalCategories"])
        "displayName" with
    | .error e => .error e
    | .ok additionalCategories =>
      .ok
        [("id", gmbLocationId),
          ("business_name", orNull (optPath gmbLocationData ["title"])),
          ("business_type", orNull (optPath gmbLocationData ["serviceArea", "businessType"])),
          ("language_code", orNull (optPath gmbLocationData ["languageCode"])),
          ("region_code", orNull (optPath gmbLocationData ["storefrontAddress", "regionCode"])),
          ("postal_code", orNull (optPath gmbLocationData ["storefrontAddress", "postalCode"])),
          ("sorting_code",
            orNull (optPath gmbLocationData ["storefrontAddress", "sortingCode"])),
          ("administrative_area",
            orNull (optPath gmbLocationData ["storefrontAddress", "administrativeArea"])),
          ("locality", orNull (optPath gmbLocationData ["storefrontAddress", "locality"])),
          ("sublocality",
            orNull (optPath gmbLocationData ["storefrontAddress", "sublocality"])),
          ("address_lines",
            orNull (optPath gmbLocationData ["storefrontAddress", "addressLines"])),
          ("recipients", orNull (optPath gmbLocationData ["storefrontAddress", "recipients"])),
          ("service_areas", orNull serviceAreas),
          ("verification_status", orNull (optPath gmbLocationData ["verificationStatus"])),
          ("place_id", orNull (optPath gmbLocationData ["metadata", "placeId"])),
          ("maps_uri", orNull (optPath gmbLocationData ["metadata", "mapsUri"])),
          ("website_uri", orNull (optPath gmbLocationData ["websiteUri"])),
          ("primary_phone", orNull (optPath gmbLocationData ["phoneNumbers", "primaryPhone"])),
          ("primary_category",
            orNull (optPath gmbLocationData ["categories", "primaryCategory", "displayName"])),
          ("additional_categories", orNull additionalCategories),
          ("description", orNull (optPath gmbLocationData ["profile", "description"])),
          ("regular_hours", orNull (optPath gmbLocationData ["regularHours"]))]

/-- The one-element batch `gmbStuffingData` (lines 95-101). -/
def gmbStuffingData (gmbLocationId gmbLocationData : JSValue) : List JSValue :=
  [.obj [("gmb_id", gmbLocationId),
    ("gmb_name", orNull (optPath gmbLocationData ["title"])),
    ("description", orNull (optPath gmbLocationData ["profile", "description"]))]]

/-- An entry of `changes`. -/
structure Change where
  key : String
  existingValue : JSValue
  newValue : JSValue

/-- The test that the string starts with an opening brace (`startsWith`). -/
def startsWithBrace (s : String) : Bool :=
  match s.data with
  | c :: _ => c.toNat == 123
  | [] => false

/-- The value `parsedExisting` (lines 127-136): a stored string that starts with
an opening brace is parsed as JSON, and kept as it is when parsing throws.
`jsonParse` is `JSON.parse`, with `none` for a thrown `SyntaxError`. -/
def parseExisting (jsonParse : String → Option JSValue) (existingValue : JSValue) : JSValue :=
  match existingValue with
  | .str s =>
    if startsWithBrace s then
      match jsonParse s with
      | some v => v
      | none => existingValue
    else existingValue
  | v => v

/-- The comparison `normExisting !== normNew` of one field (lines 138-141). -/
def fieldChanged (jsonParse : String → Option JSValue) (existingValue newValue : JSValue) :
    Bool :=
  stableStringify (parseExisting jsonParse existingValue) != stableStringify newValue

/-- The test `key === "business_name" || key === "description"`. -/
def isStuffingField (key : String) : Bool := key == "business_name" || key == "description"

/-- The diff loop (lines 122-152) over the fields of `newData`, in their order:
the list `changes` and the sends made on the way. -/
def diffLoop (jsonParse : String → Option JSValue) (stuffing : List JSValue) (existing : Row) :
    Row → List Change × List Effect
  | [] => ([], [])
  | (key, newValue) :: rest =>
    let existingValue := getProp (.obj existing) key
    let tail := diffLoop jsonParse stuffing existing rest
    if fieldChanged jsonParse existingValue newValue then
      (⟨key, existingValue, newValue⟩ :: tail.1,
        (if isStuffingField key then [Effect.send .keywordStuffing stuffing] else []) ++ tail.2)
    else tail

/-! ## prettify -/

/-- The table `prettyNames` (lines 168-189). -/
def prettyNames : Row :=
  [("business_name", .str "Business Name"),
    ("business_type", .str "Business Type"),
    ("language_code", .str "Language Code"),
    ("region_code", .str "Region Code"),
    ("postal_code", .str "Postal Code"),
    ("sorting_code", .str "Sorting Code"),
    ("administrative_area", .str "Administrative Area"),
    ("locality", .str "Locality"),
    ("sublocality", .str "Sublocality"),
    ("address_lines", .str "Address Lines"),
    ("recipients", .str "Recipients"),
    ("service_areas", .str "Service Areas"),
    ("verification_status", .str "Verification Status"),
    ("place_id", .str "Place ID"),
    ("website_uri", .str "Website URI"),
    ("primary_phone", .str "Primary Phone"),
    ("primary_category", .str "Primary Category"),
    ("additional_categories", .str "Additional Categories"),
    ("description", .str "Description"),
    ("regular_hours", .str "Regular Hours")]

/-- The call `key.split('_')` on the characters of the key. -/
def splitUnderscore : List Char → List (List Char)
  | [] => [[]]
  | c :: cs =>
    if c.toNat == 95 then [] :: splitUnderscore cs
    else
      match splitUnderscore cs with
      | w :: ws => (c :: w) :: ws
      | [] => [[c]]

/-- The expression `w.charAt(0).toUpperCase() + w.slice(1)`.  `charAt(0)` is the first UTF-16
code unit: the first character when it lies in the basic plane, the empty string
for an empty word, and otherwise half of a surrogate pair, which upper-casing
leaves alone, so that the word comes back unchanged. -/
def capitalize (toUpperCase : String → String) (w : List Char) : String :=
  match w with
  | [] => toUpperCase "" ++ ""
  | c :: cs =>
    if c.toNat < 65536 then toUpperCase (String.mk [c]) ++ String.mk cs
    else String.mk (c :: cs)

/-- The generic branch of `prettify`: split, capitalize, join with a space. -/
def splitAndCapitalize (toUpperCase : String → String) (key : String) : String :=
  joinWith " " ((splitUnderscore key.data).map (capitalize toUpperCase))

/-- The function `prettify(key)` (lines 191-197).  `toUpperCase` is
`String.prototype.toUpperCase`. -/
def prettify (toUpperCase : String → String) (key : String) : JSValue :=
  if truthy (getProp (.obj prettyNames) key) then getProp (.obj prettyNames) key
  else .str (splitAndCapitalize toUpperCase key)

/-- The method `String.prototype.toUpperCase` on ASCII text. -/
def toUpperCaseAscii (s : String) : String := String.mk (s.data.map Char.toUpper)

/-! ## The change router (lines 199-251) -/

/-- What the router reads besides the change list. -/
structure RouteContext where
  gmbLocationId : JSValue
  /-- The value of `gmbLocationData?.title`. -/
  title : JSValue
  organization_id : JSValue
  /-- The review count `count`. -/
  count : Nat

/-- The history row of a `verification_status` change. -/
def statusHistoryRow (ctx : RouteContext) (c : Change) : Row :=
  [("gmb_id", ctx.gmbLocationId),
    ("history_type_id", .num 1),
    ("review_amount", .num ctx.count),
    ("data", textValue (jsonStringify (.obj
      [("old_status", textValue (stableStringify c.existingValue)),
        ("new_status", textValue (stableStringify c.newValue))])))]

/-- The history row of a change of any other field. -/
def fieldHistoryRow (toUpperCase : String → String) (ctx : RouteContext) (c : Change) : Row :=
  [("gmb_id", ctx.gmbLocationId),
    ("history_type_id", .num 2),
    ("review_amount", .num ctx.count),
    ("data", textValue (jsonStringify (.obj
      [("field_that_changed", prettify toUpperCase c.key),
        ("old_data", textValue (stableStringify c.existingValue)),
        ("new_data", textValue (stableStringify c.newValue))])))]

/-- The object `notificationData` of a `verification_status` change. -/
def notificationData (store : Store) (ctx : RouteContext) (c : Change) : Row :=
  [("data", textValue (jsonStringify (.obj
      [("gmb_id", ctx.gmbLocationId),
        ("gmb_name", ctx.title),
        ("old_status", c.existingValue),
        ("new_status", c.newValue)]))),
    ("notification_type_id", store.voiceOfMerchantTypeId)]

/-- The notification row pushed for one user id. -/
def notificationRow (store : Store) (ctx : RouteContext) (c : Change) (userId : JSValue) :
    Row :=
  [("organization_id", ctx.organization_id), ("user_id", userId)] ++
    notificationData store ctx c

/-- The routing loop over `changes`: the lists `historyInserts` and
`notificationsToInsert`. -/
def route (toUpperCase : String → String) (store : Store) (ctx : RouteContext) :
    List Change → List Row × List Row
  | [] => ([], [])
  | c :: rest =>
    let tail := route toUpperCase store ctx rest
    if c.key == "verification_status" then
      (statusHistoryRow ctx c :: tail.1,
        (getUserIdsByOrganizationId ctx.organization_id store).map
          (notificationRow store ctx c) ++ tail.2)
    else (fieldHistoryRow toUpperCase ctx c :: tail.1, tail.2)

/-- The function `syncLocationDetailsToDatabase(gmbLocationId, gmbLocationData,
organization_id)` (lines 65-261): the effects of one run in order, or the
exception it throws before any effect. -/
def syncLocationDetailsToDatabase (jsonParse : String → Option JSValue)
    (toUpperCase : String → String) (store : Store)
    (gmbLocationId gmbLocationData organization_id : JSValue) : Except JSError (List Effect) :=
  match buildNewData gmbLocationId gmbLocationData with
  | .error e => .error e
  | .ok newData =>
    let stuffing := gmbStuffingData gmbLocationId gmbLocationData
    match getPropStrict gmbLocationData "business_name_keyword_stuffed_checked_at" with
    | .error e => .error e
    | .ok checkedAt =>
      let first := if !truthy checkedAt then [Effect.send .keywordStuffing stuffing] else []
      match store.location gmbLocationId with
      | none => .ok (first ++ [Effect.insert .gmbLocation [newData]])
      | some existing =>
        let diff := diffLoop jsonParse stuffing existing newData
        if diff.1.length > 0 then
          let ctx : RouteContext :=
            ⟨gmbLocationId, optPath gmbLocationData ["title"], organization_id,
              store.liveReviewCount gmbLocationId⟩
          let routed := route toUpperCase store ctx diff.1
          .ok (first ++ diff.2 ++
            [Effect.update .gmbLocation gmbLocationId newData,
              Effect.insert .history routed.1] ++
            (if routed.2.length > 0 then [Effect.insert .notification routed.2] else []))
        else .ok (first ++ diff.2)

/-! ## syncReviewsToDatabase -/

/-- An ASCII digit, what `\d` matches. -/
def isDigit (c : Char) : Bool := 48 ≤ c.toNat && c.toNat ≤ 57

/-- The test of the pattern `^\d\d\d\d-\d\d-\d\dT` (line 337). -/
def looksLikeIsoDate (s : String) : Bool :=
  match s.data with
  | y1 :: y2 :: y3 :: y4 :: h1 :: m1 :: m2 :: h2 :: d1 :: d2 :: t :: _ =>
    isDigit y1 && isDigit y2 && isDigit y3 && isDigit y4 && h1.toNat == 45 &&
      isDigit m1 && isDigit m2 && h2.toNat == 45 && isDigit d1 && isDigit d2 &&
      t.toNat == 84
  | _ => false

/-- The function `normalize(val)` (lines 334-339).  `dateToISO s` is
`new Date(s).toISOString()`, with `none` when the date is invalid and
`toISOString` throws a `RangeError`. -/
def normalize (dateToISO : String → Option String) (val : JSValue) : Except JSError JSValue :=
  match val with
  | .undefined => .ok .null
  | .null => .ok .null
  | .date (some iso) => .ok (.str iso)
  | .date none => .error (.rangeError "Invalid time value")
  | .str s =>
    if looksLikeIsoDate s then
      match dateToISO s with
      | some iso => .ok (.str iso)
      | none => .error (.rangeError "Invalid time value")
    else .ok (.str s)
  | v => .ok v

/-- The test `a === b` for a value built from the fetch and a value read from the store:
primitives are compared by value; an array, object, date or function is only
identical to itself, and the two sides never share one. -/
def strictEquals : JSValue → JSValue → Bool
  | .undefined, .undefined => true
  | .null, .null => true
  | .bool a, .bool b => a == b
  | .num a, .num b => a == b
  | .dec neg s n, .dec neg' s' n' => neg == neg' && s == s' && n == n'
  | .str a, .str b => a == b
  | _, _ => false

/-- The object `newData` of one review (lines 346-360); `now` is
`new Date().toISOString()`. -/
def reviewNewData (gmbId review : JSValue) (now : String) : Except JSError Row :=
  match getPropStrict review "reviewId" with
  | .error e => .error e
  | .ok reviewId =>
    .ok
      [("id", reviewId),
        ("gmb_id", gmbId),
        ("reviewerProfilePhotoUrl", orNull (optPath review ["reviewer", "profilePhotoUrl"])),
        ("reviewerDisplayName", orNull (optPath review ["reviewer", "displayName"])),
        ("starRating", orNull (getProp review "starRating")),
        ("comment", orNull (getProp review "comment")),
        ("createTime", orNull (getProp review "createTime")),
        ("updateTime", orNull (getProp review "updateTime")),
        ("reviewReplyComment", orNull (optPath review ["reviewReply", "comment"])),
        ("reviewReplyUpdateTime", orNull (optPath review ["reviewReply", "updateTime"])),
        ("name", orNull (getProp review "name")),
        ("backed_up_date_time", .str now),
        ("is_review_live_on_google", .bool true)]

/-- The diff loop of one review (lines 371-377) over the fields of `newData`. -/
def reviewChanges (dateToISO : String → Option String) (existing : Row) :
    Row → Except JSError (List Change)
  | [] => .ok []
  | (key, newValue) :: rest =>
    match normalize dateToISO newValue with
    | .error e => .error e
    | .ok normNew =>
      match normalize dateToISO (getProp (.obj existing) key) with
      | .error e => .error e
      | .ok normExisting =>
        match reviewChanges dateToISO existing rest with
        | .error e => .error e
        | .ok tail =>
          if !strictEquals normNew normExisting then
            .ok (⟨key, getProp (.obj existing) key, newValue⟩ :: tail)
          else .ok tail

/-- One turn of the loop of `syncReviewsToDatabase` (lines 345-387): the write
it performs, if any, or the exception it throws. -/
def syncReview (dateToISO : String → Option String) (store : Store) (gmbId review : JSValue)
    (now : String) : Except JSError (List Effect) :=
  match reviewNewData gmbId review now with
  | .error e => .error e
  | .ok newData =>
    match store.review gmbId (getProp review "reviewId") with
    | none => .ok [Effect.insert .gmbReview [newData]]
    | some existing =>
      match reviewChanges dateToISO existing newData with
      | .error e => .error e
      | .ok changes =>
        if changes.length > 0 then
          .ok [Effect.update .gmbReview (getProp review "reviewId") newData]
        else .ok []

/-- The loop of `syncReviewsToDatabase`: the writes performed, and the
exception that ended the loop, if one did.  `clock i` is the reading of the
clock in turn `i`. -/
def syncReviewsFrom (dateToISO : String → Option String) (store : Store) (gmbId : JSValue)
    (clock : Nat → String) : Nat → List JSValue → List Effect × Option JSError
  | _, [] => ([], none)
  | i, review :: rest =>
    match syncReview dateToISO store gmbId review (clock i) with
    | .error e => ([], some e)
    | .ok effects =>
      let tail := syncReviewsFrom dateToISO store gmbId clock (i + 1) rest
      (effects ++ tail.1, tail.2)

/-- The function `syncReviewsToDatabase(gmbId, reviews)` (lines 341-388). -/
def syncReviewsToDatabase (dateToISO : String → Option String) (store : Store)
    (gmbId : JSValue) (clock : Nat → String) (reviews : List JSValue) :
    List Effect × Option JSError :=
  syncReviewsFrom dateToISO store gmbId clock 0 reviews

/-! ## The built-ins the program calls

The theorems below hold for every behaviour of `JSON.parse`,
`String.prototype.toUpperCase` and `Date`; the functions of this section give
those built-ins on the inputs of the worked examples. -/

/-- JSON white space. -/
def isJsonSpace (c : Char) : Bool :=
  c.toNat == 32 || c.toNat == 9 || c.toNat == 10 || c.toNat == 13

/-- Drop leading white space. -/
def skipSpace : List Char → List Char
  | [] => []
  | c :: cs => if isJsonSpace c then skipSpace cs else c :: cs

/-- The value of a hexadecimal digit. -/
def hexValue (c : Char) : Option Nat :=
  if 48 ≤ c.toNat && c.toNat ≤ 57 then some (c.toNat - 48)
  else if 97 ≤ c.toNat && c.toNat ≤ 102 then some (c.toNat - 87)
  else if 65 ≤ c.toNat && c.toNat ≤ 70 then some (c.toNat - 55)
  else none

/-- The character a `\u` escape with four digits names, when it is one
character by itself (not half of a surrogate pair). -/
def unicodeEscape (a b c d : Char) : Option Char :=
  match hexValue a, hexValue b, hexValue c, hexValue d with
  | some w, some x, some y, some z =>
    let n := ((w * 16 + x) * 16 + y) * 16 + z
    if n < 55296 || 57343 < n then some (Char.ofNat n) else none
  | _, _, _, _ => none

/-- The character a one-letter escape names. -/
def simpleEscape (e : Char) : Option Char :=
  if e.toNat == 34 then some (Char.ofNat 34)
  else if e.toNat == 92 then some (Char.ofNat 92)
  else if e.toNat == 47 then some (Char.ofNat 47)
  else if e.toNat == 98 then some (Char.ofNat 8)
  else if e.toNat == 102 then some (Char.ofNat 12)
  else if e.toNat == 110 then some (Char.ofNat 10)
  else if e.toNat == 114 then some (Char.ofNat 13)
  else if e.toNat == 116 then some (Char.ofNat 9)
  else none

/-- The body of a JSON string, after its opening quote: the decoded characters
and the unread rest.  The first argument bounds the number of steps. -/
def parseStringBody : Nat → List Char → List Char → Option (String × List Char)
  | 0, _, _ => none
  | _ + 1, [], _ => none
  | fuel + 1, c :: cs, acc =>
    if c.toNat == 34 then some (String.mk acc.reverse, cs)
    else if c.toNat < 32 then none
    else if c.toNat == 92 then
      match cs with
      | [] => none
      | e :: rest =>
        if e.toNat == 117 then
          match rest with
          | u1 :: u2 :: u3 :: u4 :: rest =>
            match unicodeEscape u1 u2 u3 u4 with
            | some x => parseStringBody fuel rest (x :: acc)
            | none => none
          | _ => none
        else
          match simpleEscape e with
          | some x => parseStringBody fuel rest (x :: acc)
          | none => none
    else parseStringBody fuel cs (c :: acc)

/-- The digits at the head of the text, as a number, and the unread rest. -/
def parseDigits : List Char → Nat → Nat × List Char
  | [], n => (n, [])
  | c :: cs, n => if isDigit c then parseDigits cs (n * 10 + (c.toNat - 48)) else (n, c :: cs)

/-- A JSON number without fraction and exponent: digits without a superfluous
leading zero.  A text that continues with a fraction or an exponent is not
read. -/
def parseNatural (cs : List Char) : Option (Nat × List Char) :=
  match cs with
  | [] => none
  | c :: rest =>
    if !isDigit c then none
    else
      let r := if c.toNat == 48 then (0, rest) else parseDigits (c :: rest) 0
      match r.2 with
      | d :: _ =>
        if isDigit d || d.toNat == 46 || d.toNat == 101 || d.toNat == 69 then none
        else some r
      | [] => some r

/-- A JSON number without fraction and exponent, with its sign. -/
def parseInteger (cs : List Char) : Option (Int × List Char) :=
  match cs with
  | [] => none
  | c :: rest =>
    if c.toNat == 45 then (parseNatural rest).map (fun r => (-(r.1 : Int), r.2))
    else (parseNatural cs).map (fun r => ((r.1 : Int), r.2))

/-- A key that is an array index: a decimal numeral without leading zero below
`2^32 - 1`. -/
def arrayIndex (k : String) : Option Nat :=
  match parseNatural k.data with
  | some (n, []) => if n < 4294967295 then some n else none
  | _ => none

/-- The write `obj[k] = v` on the list of own properties: an existing key keeps its
place. -/
def setOwn (k : String) (v : JSValue) : Row → Row
  | [] => [(k, v)]
  | (k', v') :: es => if k' == k then (k, v) :: es else (k', v') :: setOwn k v es

/-- Insert an index key at its place among the index keys, which are kept in
ascending order at the front; another key goes to the end. -/
def insertOwn (k : String) (v : JSValue) : Row → Row
  | [] => [(k, v)]
  | (k', v') :: es =>
    match arrayIndex k, arrayIndex k' with
    | some n, some n' => if n < n' then (k, v) :: (k', v') :: es else (k', v') :: insertOwn k v es
    | some _, none => (k, v) :: (k', v') :: es
    | none, _ => (k', v') :: insertOwn k v es

/-- Define the property `k` of an object under construction. -/
def defineOwn (k : String) (v : JSValue) (es : Row) : Row :=
  if (es.lookup k).isSome then setOwn k v es else insertOwn k v es

mutual
/-- One JSON value at the head of the text, and the unread rest.  The first
argument bounds the depth of the recursion. -/
def parseValue : Nat → List Char → Option (JSValue × List Char)
  | 0, _ => none
  | fuel + 1, cs =>
    match skipSpace cs with
    | [] => none
    | c :: rest =>
      if c.toNat == 110 then
        match rest with
        | u :: l1 :: l2 :: rest =>
          if u.toNat == 117 && l1.toNat == 108 && l2.toNat == 108 then some (.null, rest)
          else none
        | _ => none
      else if c.toNat == 116 then
        match rest with
        | r :: u :: e :: rest =>
          if r.toNat == 114 && u.toNat == 117 && e.toNat == 101 then some (.bool true, rest)
          else none
        | _ => none
      else if c.toNat == 102 then
        match rest with
        | a :: l :: s :: e :: rest =>
          if a.toNat == 97 && l.toNat == 108 && s.toNat == 115 && e.toNat == 101 then
            some (.bool false, rest)
          else none
        | _ => none
      else if c.toNat == 34 then
        match parseStringBody (rest.length + 1) rest [] with
        | some (s, rest) => some (.str s, rest)
        | none => none
      else if c.toNat == 91 then
        match skipSpace rest with
        | d :: rest' =>
          if d.toNat == 93 then some (.arr [], rest')
          else parseElements fuel (d :: rest') []
        | [] => none
      else if c.toNat == 123 then
        match skipSpace rest with
        | d :: rest' =>
          if d.toNat == 125 then some (.obj [], rest')
          else parseMembers fuel (d :: rest') []
        | [] => none
      else
        match parseInteger (c :: rest) with
        | some (n, rest) => some (.num n, rest)
        | none => none
/-- The elements of an array after its opening bracket. -/
def parseElements : Nat → List Char → List JSValue → Option (JSValue × List Char)
  | 0, _, _ => none
  | fuel + 1, cs, acc =>
    match parseValue fuel cs with
    | none => none
    | some (v, rest) =>
      match skipSpace rest with
      | d :: rest' =>
        if d.toNat == 44 then parseElements fuel rest' (v :: acc)
        else if d.toNat == 93 then some (.arr (v :: acc).reverse, rest')
        else none
      | [] => none
/-- The members of an object after its opening brace. -/
def parseMembers : Nat → List Char → Row → Option (JSValue × List Char)
  | 0, _, _ => none
  | fuel + 1, cs, acc =>
    match skipSpace cs with
    | q :: rest =>
      if q.toNat == 34 then
        match parseStringBody (rest.length + 1) rest [] with
        | none => none
        | some (k, rest) =>
          match skipSpace rest with
          | colon :: rest =>
            if colon.toNat == 58 then
              match parseValue fuel rest with
              | none => none
              | some (v, rest) =>
                match skipSpace rest with
                | d :: rest' =>
                  if d.toNat == 44 then parseMembers fuel rest' (defineOwn k v acc)
                  else if d.toNat == 125 then some (.obj (defineOwn k v acc), rest')
                  else none
                | [] => none
            else none
          | [] => none
      else none
    | [] => none
end

/-- The function `JSON.parse(text)` on a text whose numbers are integers of at most
15 digits written without fraction and exponent and whose strings hold no
surrogate escapes; `none` is a thrown `SyntaxError`.  Other texts are outside the
domain of this function. -/
def parseJSON (text : String) : Option JSValue :=
  match parseValue (text.length + 1) text.data with
  | some (v, rest) => if (skipSpace rest).isEmpty then some v else none
  | none => none

/-- The expression `new Date(s).toISOString()` on a text that already is the canonical text of
an instant, `YYYY-MM-DDTHH:mm:ss.sssZ` with a month from 01 to 12, a day from 01
to 28, and a time of day: the text itself.  Other texts are outside the domain
of this function. -/
def dateToISOCanonical (s : String) : Option String :=
  match s.data with
  | [y1, y2, y3, y4, h1, m1, m2, h2, d1, d2, t, hr1, hr2, c1, mi1, mi2, c2, s1, s2, dot,
      f1, f2, f3, z] =>
    let two := fun (a b : Char) => (a.toNat - 48) * 10 + (b.toNat - 48)
    if isDigit y1 && isDigit y2 && isDigit y3 && isDigit y4 && h1.toNat == 45 &&
        isDigit m1 && isDigit m2 && h2.toNat == 45 && isDigit d1 && isDigit d2 &&
        t.toNat == 84 && isDigit hr1 && isDigit hr2 && c1.toNat == 58 &&
        isDigit mi1 && isDigit mi2 && c2.toNat == 58 && isDigit s1 && isDigit s2 &&
        dot.toNat == 46 && isDigit f1 && isDigit f2 && isDigit f3 && z.toNat == 90 &&
        1 ≤ two m1 m2 && two m1 m2 ≤ 12 && 1 ≤ two d1 d2 && two d1 d2 ≤ 28 &&
        two hr1 hr2 ≤ 23 && two mi1 mi2 ≤ 59 && two s1 s2 ≤ 59 then some s
    else none
  | _ => none

/-! ## Equality of values -/

mutual
/-- Structural equality of values. -/
def JSValue.beq : JSValue → JSValue → Bool
  | .undefined, b => match b with | .undefined => true | _ => false
  | .null, b => match b with | .null => true | _ => false
  | .bool x, b => match b with | .bool y => x == y | _ => false
  | .num x, b => match b with | .num y => x == y | _ => false
  | .str x, b => match b with | .str y => x == y | _ => false
  | .date x, b => match b with | .date y => x == y | _ => false
  | .fn x, b => match b with | .fn y => x == y | _ => false
  | .dec neg s n, b =>
    match b with
    | .dec neg' s' n' => neg == neg' && s == s' && n == n'
    | _ => false
  | .arr xs, b => match b with | .arr ys => JSValue.beqItems xs ys | _ => false
  | .obj es, b => match b with | .obj fs => JSValue.beqMembers es fs | _ => false
/-- Structural equality of element lists. -/
def JSValue.beqItems : List JSValue → List JSValue → Bool
  | [], ys => ys.isEmpty
  | x :: xs, ys =>
    match ys with
    | y :: ys => JSValue.beq x y && JSValue.beqItems xs ys
    | [] => false
/-- Structural equality of member lists. -/
def JSValue.beqMembers : List (String × JSValue) → List (String × JSValue) → Bool
  | [], fs => fs.isEmpty
  | (k, v) :: es, fs =>
    match fs with
    | (k', w) :: fs => k == k' && JSValue.beq v w && JSValue.beqMembers es fs
    | [] => false
end

/-! ## Specification-side definitions -/

/-- The words of a name as the specification has them: the name cut at every
underscore.  The first argument holds, last character first, the part of the
current word read so far. -/
def wordsOfName : List Char → List Char → List (List Char)
  | word, [] => [word.reverse]
  | word, c :: cs =>
    if c.toNat == 95 then word.reverse :: wordsOfName [] cs
    else wordsOfName (c :: word) cs

/-- A word with its first character upper-cased; the empty word stays empty. -/
def upperFirst (toUpperCase : String → String) : List Char → String
  | [] => ""
  | c :: cs => toUpperCase (String.mk [c]) ++ String.mk cs

/-- Words joined by single spaces, from the left. -/
def joinBySpaces : List String → String
  | [] => ""
  | w :: ws => ws.foldl (fun text x => text ++ " " ++ x) w

/-- The humanizer as the specification words it: the entry of the display-name
table when the name is in the table, and otherwise the name split at every
underscore, the first character of each word upper-cased, the words joined by
single spaces. -/
def prettifySpec (toUpperCase : String → String) (key : String) : JSValue :=
  match prettyNames.lookup key with
  | some displayName => displayName
  | none => .str (joinBySpaces ((wordsOfName [] key.data).map (upperFirst toUpperCase)))

/-- The decoding of a stored value as the specification words it: a stored
string that begins with an opening brace is parsed as JSON; the stored value
comes back unchanged when it is not such a string or when parsing fails. -/
def decode (jsonParse : String → Option JSValue) (stored : JSValue) : JSValue :=
  match stored with
  | .str s => if startsWithBrace s then (jsonParse s).getD stored else stored
  | _ => stored

/-- The fields of the new row that the specification calls changed, in the
order of the new row. -/
def changedFields (jsonParse : String → Option JSValue) (existing newData : Row) : List Change :=
  (newData.filter (fun kv =>
      stableStringify (decode jsonParse (getProp (.obj existing) kv.1)) !=
        stableStringify kv.2)).map
    (fun kv => ⟨kv.1, getProp (.obj existing) kv.1, kv.2⟩)

/-- The number of messages sent to the keyword-stuffing queue. -/
def stuffingMessages : List Effect → Nat
  | [] => 0
  | .send .keywordStuffing messages :: rest => messages.length + stuffingMessages rest
  | _ :: rest => stuffingMessages rest

/-- The rows inserted into a table. -/
def insertedRows (table : Table) : List Effect → List Row
  | [] => []
  | .insert t rows :: rest =>
    if t = table then rows ++ insertedRows table rest else insertedRows table rest
  | _ :: rest => insertedRows table rest

/-- The number of updates of a table. -/
def updateCount (table : Table) : List Effect → Nat
  | [] => 0
  | .update t _ _ :: rest =>
    if t = table then 1 + updateCount table rest else updateCount table rest
  | _ :: rest => updateCount table rest

/-! ## Inputs of the worked examples -/

/-- A store without rows, in which the organization `org1` has the users `u1`
and `u2`. -/
def emptyStore : Store where
  location := fun _ => none
  liveReviewCount := fun _ => 0
  usersOfOrganization := fun organizationId =>
    if JSValue.beq organizationId (.str "org1") then [[("user_id", .str "u1")], [("user_id", .str "u2")]]
    else []
  voiceOfMerchantTypeId := .num 7
  review := fun _ _ => none

/-- The context of a routing call for the location `loc1` of `org1`. -/
def sampleContext : RouteContext := ⟨.str "loc1", .str "Cafe", .str "org1", 4⟩

/-- The status change from `SOFT_SUSPENDED` to `VERIFIED`. -/
def statusChange : Change := ⟨"verification_status", .str "SOFT_SUSPENDED", .str "VERIFIED"⟩

/-- The name change from `Old Name` to `New Name`. -/
def nameChange : Change := ⟨"business_name", .str "Old Name", .str "New Name"⟩

/-- A fetched location: a cafe with one address line and opening hours. -/
def cafeLocation : JSValue :=
  .obj [("title", .str "Cafe"),
    ("storefrontAddress", .obj [("addressLines", .arr [.str "1 Main St"])]),
    ("regularHours", .obj [("periods", .arr [.obj [("openDay", .str "MONDAY")]])]),
    ("verificationStatus", .str "VERIFIED"),
    ("profile", .obj [("description", .str "Coffee")])]

/-- The row `newData` built from `cafeLocation` for the id `loc1`. -/
def cafeRow : Row :=
  [("id", .str "loc1"), ("business_name", .str "Cafe"), ("business_type", .null),
    ("language_code", .null), ("region_code", .null), ("postal_code", .null),
    ("sorting_code", .null), ("administrative_area", .null), ("locality", .null),
    ("sublocality", .null), ("address_lines", .arr [.str "1 Main St"]),
    ("recipients", .null), ("service_areas", .null),
    ("verification_status", .str "VERIFIED"), ("place_id", .null), ("maps_uri", .null),
    ("website_uri", .null), ("primary_phone", .null), ("primary_category", .null),
    ("additional_categories", .null), ("description", .str "Coffee"),
    ("regular_hours", .obj [("periods", .arr [.obj [("openDay", .str "MONDAY")]])])]

/-- A store that holds one location row, whatever the id asked for. -/
def storeWithLocation (row : Row) : Store :=
  { emptyStore with location := fun _ => some row }

/-- A stored row of the cafe with another name and another description. -/
def oldCafeRow : Row :=
  [("id", .str "loc1"), ("business_name", .str "Old Cafe"), ("business_type", .null),
    ("language_code", .null), ("region_code", .null), ("postal_code", .null),
    ("sorting_code", .null), ("administrative_area", .null), ("locality", .null),
    ("sublocality", .null), ("address_lines", .arr [.str "1 Main St"]),
    ("recipients", .null), ("service_areas", .null),
    ("verification_status", .str "VERIFIED"), ("place_id", .null), ("maps_uri", .null),
    ("website_uri", .null), ("primary_phone", .null), ("primary_category", .null),
    ("additional_categories", .null), ("description", .str "Tea"),
    ("regular_hours", .obj [("periods", .arr [.obj [("openDay", .str "MONDAY")]])])]

/-! ## Reading a stored row back -/

/-- An array or an object. -/
def isNested : JSValue → Bool
  | .arr _ => true
  | .obj _ => true
  | _ => false

/-- The row `existing` is the row `newData` read back in the widest sense: each
stored field is equal to the written value, or, for a nested value, is its JSON
text. -/
def readBackAsStated (newData existing : Row) : Bool :=
  newData.all (fun kv =>
    JSValue.beq (getProp (.obj existing) kv.1) kv.2 ||
      (isNested kv.2 &&
        JSValue.beq (getProp (.obj existing) kv.1) (textValue (jsonStringify kv.2))))

/-- The written value is not a string that begins with an opening brace and that
`JSON.parse` accepts. -/
def decodesAsItself (jsonParse : String → Option JSValue) (written : JSValue) : Bool :=
  match written with
  | .str s => !(startsWithBrace s && (jsonParse s).isSome)
  | _ => true

/-- The written value is an object and the stored value is its JSON text, which
`JSON.parse` decodes to a value with the same `stableStringify` text. -/
def objectReadBackAsText (jsonParse : String → Option JSValue) (written stored : JSValue) :
    Bool :=
  match written, stored with
  | .obj entries, .str text =>
    jsonStringify (.obj entries) == some text &&
      (match jsonParse text with
        | some decoded => stableStringify decoded == stableStringify (.obj entries)
        | none => false)
  | _, _ => false

/-- One stored field read back, in the narrower sense of the amended claim. -/
def fieldReadBack (jsonParse : String → Option JSValue) (written stored : JSValue) : Bool :=
  (JSValue.beq stored written && decodesAsItself jsonParse written) ||
    objectReadBackAsText jsonParse written stored

/-- The row `existing` is the row `newData` read back, in the narrower sense of
the amended claim. -/
def rowReadBack (jsonParse : String → Option JSValue) (newData existing : Row) : Bool :=
  newData.all (fun kv => fieldReadBack jsonParse kv.2 (getProp (.obj existing) kv.1))

/-- A fetched location whose title is the text of an empty JSON object. -/
def braceLocation : JSValue := .obj [("title", .str "\x7b\x7d")]

/-- The row `newData` built from `braceLocation` for the id `loc1`. -/
def braceRow : Row :=
  [("id", .str "loc1"), ("business_name", .str "\x7b\x7d"), ("business_type", .null),
    ("language_code", .null), ("region_code", .null), ("postal_code", .null),
    ("sorting_code", .null), ("administrative_area", .null), ("locality", .null),
    ("sublocality", .null), ("address_lines", .null),
    ("recipients", .null), ("service_areas", .null),
    ("verification_status", .null), ("place_id", .null), ("maps_uri", .null),
    ("website_uri", .null), ("primary_phone", .null), ("primary_category", .null),
    ("additional_categories", .null), ("description", .null),
    ("regular_hours", .null)]

/-- The row `cafeRow` as a store gives it back that keeps the opening hours as
JSON text. -/
def cafeRowAsStored : Row :=
  [("id", .str "loc1"), ("business_name", .str "Cafe"), ("business_type", .null),
    ("language_code", .null), ("region_code", .null), ("postal_code", .null),
    ("sorting_code", .null), ("administrative_area", .null), ("locality", .null),
    ("sublocality", .null), ("address_lines", .arr [.str "1 Main St"]),
    ("recipients", .null), ("service_areas", .null),
    ("verification_status", .str "VERIFIED"), ("place_id", .null), ("maps_uri", .null),
    ("website_uri", .null), ("primary_phone", .null), ("primary_category", .null),
    ("additional_categories", .null), ("description", .str "Coffee"),
    ("regular_hours", .str "\x7b\"periods\":[\x7b\"openDay\":\"MONDAY\"\x7d]\x7d")]

/-- A fetched review. -/
def sampleReview : JSValue :=
  .obj [("reviewId", .str "r1"),
    ("reviewer", .obj [("displayName", .str "Ann"), ("profilePhotoUrl", .str "https://x/p.png")]),
    ("starRating", .str "FIVE"),
    ("comment", .str "Great"),
    ("createTime", .str "2024-01-01T10:00:00.000Z"),
    ("updateTime", .str "2024-01-01T10:00:00.000Z"),
    ("name", .str "accounts/1/locations/loc1/reviews/r1")]

/-- The row `newData` built from `sampleReview` when the clock reads `now`. -/
def sampleReviewRow (now : String) : Row :=
  [("id", .str "r1"), ("gmb_id", .str "loc1"),
    ("reviewerProfilePhotoUrl", .str "https://x/p.png"),
    ("reviewerDisplayName", .str "Ann"),
    ("starRating", .str "FIVE"),
    ("comment", .str "Great"),
    ("createTime", .str "2024-01-01T10:00:00.000Z"),
    ("updateTime", .str "2024-01-01T10:00:00.000Z"),
    ("reviewReplyComment", .null),
    ("reviewReplyUpdateTime", .null),
    ("name", .str "accounts/1/locations/loc1/reviews/r1"),
    ("backed_up_date_time", .str now),
    ("is_review_live_on_google", .bool true)]

/-- A store that holds one review row, whatever the id asked for. -/
def storeWithReview (row : Row) : Store :=
  { emptyStore with review := fun _ _ => some row }

/-- The row `cafeRow` as a store gives it back that keeps the address lines as
JSON text. -/
def cafeRowWithArrayText : Row :=
  [("id", .str "loc1"), ("business_name", .str "Cafe"), ("business_type", .null),
    ("language_code", .null), ("region_code", .null), ("postal_code", .null),
    ("sorting_code", .null), ("administrative_area", .null), ("locality", .null),
    ("sublocality", .null), ("address_lines", .str "[\"1 Main St\"]"),
    ("recipients", .null), ("service_areas", .null),
    ("verification_status", .str "VERIFIED"), ("place_id", .null), ("maps_uri", .null),
    ("website_uri", .null), ("primary_phone", .null), ("primary_category", .null),
    ("additional_categories", .null), ("description", .str "Coffee"),
    ("regular_hours", .obj [("periods", .arr [.obj [("openDay", .str "MONDAY")]])])]

/-- A stored row of the cafe whose status was `SOFT_SUSPENDED`. -/
def suspendedCafeRow : Row :=
  [("id", .str "loc1"), ("business_name", .str "Cafe"), ("business_type", .null),
    ("language_code", .null), ("region_code", .null), ("postal_code", .null),
    ("sorting_code", .null), ("administrative_area", .null), ("locality", .null),
    ("sublocality", .null), ("address_lines", .arr [.str "1 Main St"]),
    ("recipients", .null), ("service_areas", .null),
    ("verification_status", .str "SOFT_SUSPENDED"), ("place_id", .null), ("maps_uri", .null),
    ("website_uri", .null), ("primary_phone", .null), ("primary_category", .null),
    ("additional_categories", .null), ("description", .str "Coffee"),
    ("regular_hours", .obj [("periods", .arr [.obj [("openDay", .str "MONDAY")]])])]

/-! ## JSON values, and the shape of serialized text -/

/-- The digits `s` and the exponent `n` are those of a number that is not an
integer below `10^21`: `s` is positive and does not end in zero (the numeral is
the shortest), and the number is not written as a plain integer. -/
def isDecimalNumber (s : Nat) (n : Int) : Bool :=
  s != 0 && s % 10 != 0 &&
    !(decide (((Nat.repr s).data.length : Int) ≤ n) && decide (n ≤ 21))

mutual
/-- A JSON value: `null`, a boolean, a finite number, a string, or an array or
an object (with pairwise distinct keys) of JSON values. -/
def isJson : JSValue → Bool
  | .null => true
  | .bool _ => true
  | .num n => decide (n.natAbs < 10 ^ 21)
  | .dec _ s n => isDecimalNumber s n
  | .str _ => true
  | .arr items => isJsonItems items
  | .obj entries => decide (entries.map Prod.fst).Nodup && isJsonMembers entries
  | .undefined => false
  | .date _ => false
  | .fn _ => false
/-- Every element is a JSON value. -/
def isJsonItems : List JSValue → Bool
  | [] => true
  | x :: xs => isJson x && isJsonItems xs
/-- Every member value is a JSON value. -/
def isJsonMembers : List (String × JSValue) → Bool
  | [] => true
  | (_, v) :: es => isJson v && isJsonMembers es
end

/-- The number a string of decimal digits writes. -/
def decimalValue (digits : List Char) : Nat :=
  digits.foldl (fun acc c => acc * 10 + (c.toNat - 48)) 0

/-- The text does not go on with a digit. -/
def noDigitAhead : List Char → Bool
  | [] => true
  | c :: _ => !isDigit c

/-- A character of a numeral: a digit, the point, the letter `e` or a sign. -/
def isNumeralChar (c : Char) : Bool :=
  isDigit c || c.toNat == 46 || c.toNat == 101 || c.toNat == 43 || c.toNat == 45

/-- The text does not go on with a character of a numeral. -/
def noNumeralAhead : List Char → Bool
  | [] => true
  | c :: _ => !isNumeralChar c

/-- A numeral from its parts: the digits before the point, the digits after the
point if there is one, and the exponent if there is one. -/
def numeral (ip : List Char) (fp : Option (List Char)) (ex : Option Int) : List Char :=
  ip ++
    ((match fp with
      | some digits => Char.ofNat 46 :: digits
      | none => []) ++
    (match ex with
      | some e => Char.ofNat 101 :: exponentText e
      | none => []))

/-- The digits at the head of a text, and the rest. -/
def spanDigits : List Char → List Char × List Char
  | [] => ([], [])
  | c :: cs =>
    if isDigit c then (c :: (spanDigits cs).1, (spanDigits cs).2) else ([], c :: cs)

/-- The digits after the point and the rest, when the text starts with a point. -/
def readFraction (text : List Char) : List Char × List Char :=
  match text with
  | c :: rest => if c.toNat == 46 then spanDigits rest else ([], text)
  | [] => ([], [])

/-- The exponent, when the text starts with the letter `e` and a sign. -/
def readExponent (text : List Char) : Int :=
  match text with
  | c :: sign :: rest =>
    if c.toNat == 101 then
      if sign.toNat == 45 then -(decimalValue (spanDigits rest).1 : Int)
      else (decimalValue (spanDigits rest).1 : Int)
    else 0
  | _ => 0

/-- Read an unsigned numeral back: the digits `s` and the exponent `n`. -/
def readNumeral (text : List Char) : Nat × Int :=
  let ip := spanDigits text
  let fp := readFraction ip.2
  let s := decimalValue (ip.1 ++ fp.1)
  (s, ((Nat.repr s).data.length : Int) - (fp.1.length : Int) + readExponent fp.2)

/-- The characters of a bracketed list after its opening bracket: the texts
separated by commas, the closing bracket `close`, and what follows. -/
def delimited (close : Char) (rest : List Char) : List (List Char) → List Char
  | [] => close :: rest
  | [x] => x ++ close :: rest
  | x :: y :: more => x ++ Char.ofNat 44 :: delimited close rest (y :: more)

/-- Read one escaped character back from the head of the body of a string
literal: the character and the unread rest. -/
def unescapeHead : List Char → Option (Char × List Char)
  | [] => none
  | c :: cs =>
    if c.toNat == 92 then
      match cs with
      | [] => none
      | e :: rest =>
        if e.toNat == 117 then
          match rest with
          | u1 :: u2 :: u3 :: u4 :: rest =>
            match unicodeEscape u1 u2 u3 u4 with
            | some x => some (x, rest)
            | none => none
          | _ => none
        else
          match simpleEscape e with
          | some x => some (x, rest)
          | none => none
    else some (c, cs)

/-- What follows the text of one item of a bracketed list: the closing bracket
after the last item, and otherwise a comma and the remaining items. -/
def afterItem (close : Char) (rest : List Char) : List (List Char) → List Char
  | [] => close :: rest
  | y :: more => Char.ofNat 44 :: delimited close rest (y :: more)

/-- The kind of a JSON value: 0 for `null`, 1 for `true`, 2 for `false`, 3 for a
number, 4 for a string, 5 for an array, 6 for an object. -/
def valueKind : JSValue → Nat
  | .null => 0
  | .bool true => 1
  | .bool false => 2
  | .num _ => 3
  | .dec _ _ _ => 3
  | .str _ => 4
  | .arr _ => 5
  | .obj _ => 6
  | _ => 7

/-- The kind of JSON value whose text can start with the character. -/
def headKind (c : Char) : Nat :=
  if c.toNat = 110 then 0
  else if c.toNat = 116 then 1
  else if c.toNat = 102 then 2
  else if c.toNat = 45 || isDigit c then 3
  else if c.toNat = 34 then 4
  else if c.toNat = 91 then 5
  else if c.toNat = 123 then 6
  else 7
/-! # Properties -/

/-! ## Sanity checks of the embedding -/

example : stableStringify (.obj [("b", .num 2), ("a", .arr [.null, .undefined, .str "x"])])
    = some "\x7b\"a\":[null,,\"x\"],\"b\":2\x7d" := by decide

example : jsonStringify (.obj [("b", .num (-2)), ("u", .undefined), ("a", .arr [.undefined])])
    = some "\x7b\"b\":-2,\"a\":[null]\x7d" := by decide

example : jsonStringify (.dec false 15 1) = some "1.5" := by decide

example : jsonStringify (.dec true 123 2) = some "-12.3" := by decide

example : jsonStringify (.dec false 1 (-5)) = some "0.000001" := by decide

example : jsonStringify (.dec true 1 (-6)) = some "-1e-7" := by decide

example : jsonStringify (.dec false 1 22) = some "1e+21" := by decide

example : jsonStringify (.dec false 12 22) = some "1.2e+21" := by decide

example : jsonStringify (.num 999999999999999900000) = some "999999999999999900000" := by
  decide

example : stableStringify (.obj [("b", .dec false 25 0), ("a", .arr [.dec false 5 (-6)])])
    = some "\x7b\"a\":[5e-7],\"b\":0.25\x7d" := by decide

example : readNumeral "1.2e+21".data = (12, 22) := by decide

example : readNumeral "0.000001".data = (1, -5) := by decide

/-! ## Equality of values is decidable -/

mutual
theorem JSValue.eq_of_beq : ∀ a b : JSValue, JSValue.beq a b = true → a = b
  | .undefined, b, h => by cases b <;> simp_all [JSValue.beq]
  | .null, b, h => by cases b <;> simp_all [JSValue.beq]
  | .bool x, b, h => by cases b <;> simp_all [JSValue.beq]
  | .num x, b, h => by cases b <;> simp_all [JSValue.beq]
  | .str x, b, h => by cases b <;> simp_all [JSValue.beq]
  | .date x, b, h => by cases b <;> simp_all [JSValue.beq]
  | .fn x, b, h => by cases b <;> simp_all [JSValue.beq]
  | .dec _ _ _, b, h => by cases b <;> simp_all [JSValue.beq]
  | .arr xs, b, h => by
    cases b with
    | arr ys =>
      simp only [JSValue.beq] at h
      rw [JSValue.eq_of_beqItems xs ys h]
    | _ => simp [JSValue.beq] at h
  | .obj es, b, h => by
    cases b with
    | obj fs =>
      simp only [JSValue.beq] at h
      rw [JSValue.eq_of_beqMembers es fs h]
    | _ => simp [JSValue.beq] at h
theorem JSValue.eq_of_beqItems :
    ∀ xs ys : List JSValue, JSValue.beqItems xs ys = true → xs = ys
  | [], ys, h => by cases ys <;> simp_all [JSValue.beqItems]
  | x :: xs, ys, h => by
    cases ys with
    | nil => simp [JSValue.beqItems] at h
    | cons y ys =>
      simp only [JSValue.beqItems, Bool.and_eq_true] at h
      rw [JSValue.eq_of_beq x y h.1, JSValue.eq_of_beqItems xs ys h.2]
theorem JSValue.eq_of_beqMembers :
    ∀ es fs : List (String × JSValue), JSValue.beqMembers es fs = true → es = fs
  | [], fs, h => by cases fs <;> simp_all [JSValue.beqMembers]
  | (k, v) :: es, fs, h => by
    cases fs with
    | nil => simp [JSValue.beqMembers] at h
    | cons f fs =>
      obtain ⟨k', w⟩ := f
      simp only [JSValue.beqMembers, Bool.and_eq_true, beq_iff_eq] at h
      rw [h.1.1, JSValue.eq_of_beq v w h.1.2, JSValue.eq_of_beqMembers es fs h.2]
end

mutual
theorem JSValue.beq_self : ∀ a : JSValue, JSValue.beq a a = true
  | .undefined => by simp [JSValue.beq]
  | .null => by simp [JSValue.beq]
  | .bool _ => by simp [JSValue.beq]
  | .num _ => by simp [JSValue.beq]
  | .str _ => by simp [JSValue.beq]
  | .date _ => by simp [JSValue.beq]
  | .fn _ => by simp [JSValue.beq]
  | .dec _ _ _ => by simp [JSValue.beq]
  | .arr xs => by simp [JSValue.beq, JSValue.beqItems_self xs]
  | .obj es => by simp [JSValue.beq, JSValue.beqMembers_self es]
theorem JSValue.beqItems_self : ∀ xs : List JSValue, JSValue.beqItems xs xs = true
  | [] => by simp [JSValue.beqItems]
  | x :: xs => by simp [JSValue.beqItems, JSValue.beq_self x, JSValue.beqItems_self xs]
theorem JSValue.beqMembers_self :
    ∀ es : List (String × JSValue), JSValue.beqMembers es es = true
  | [] => by simp [JSValue.beqMembers]
  | (_, v) :: es => by
    simp [JSValue.beqMembers, JSValue.beq_self v, JSValue.beqMembers_self es]
end

instance : DecidableEq JSValue := fun a b =>
  if h : JSValue.beq a b = true then isTrue (JSValue.eq_of_beq a b h)
  else isFalse (fun hab => h (hab ▸ JSValue.beq_self a))

/-! ## The key order is a total order -/

theorem codeUnitsLe_total : ∀ a b : List Nat, codeUnitsLe a b = true ∨ codeUnitsLe b a = true
  | [], _ => by simp [codeUnitsLe]
  | _ :: _, [] => by simp [codeUnitsLe]
  | a :: as, b :: bs => by
    simp only [codeUnitsLe]
    rcases Nat.lt_trichotomy a b with h | h | h
    · simp [h]
    · subst h; simpa using codeUnitsLe_total as bs
    · simp [h]

theorem codeUnitsLe_antisymm :
    ∀ a b : List Nat, codeUnitsLe a b = true → codeUnitsLe b a = true → a = b
  | [], [] => by simp
  | [], _ :: _ => by simp [codeUnitsLe]
  | _ :: _, [] => by simp [codeUnitsLe]
  | a :: as, b :: bs => by
    simp only [codeUnitsLe]
    rcases Nat.lt_trichotomy a b with h | h | h
    · simp [h, Nat.lt_asymm h]
    · subst h
      simp only [Nat.lt_irrefl, if_false]
      intro h1 h2
      rw [codeUnitsLe_antisymm as bs h1 h2]
    · simp [h, Nat.lt_asymm h]

theorem codeUnitsLe_trans :
    ∀ a b c : List Nat, codeUnitsLe a b = true → codeUnitsLe b c = true →
      codeUnitsLe a c = true
  | [], _, _ => by simp [codeUnitsLe]
  | _ :: _, [], _ => by simp [codeUnitsLe]
  | _ :: _, _ :: _, [] => by simp [codeUnitsLe]
  | a :: as, b :: bs, c :: cs => by
    simp only [codeUnitsLe]
    intro h1 h2
    by_cases hab : a < b
    · by_cases hbc : b < c
      · simp [Nat.lt_trans hab hbc]
      · have hcb : ¬ c < b := by
          intro hcb; simp [hbc, hcb] at h2
        have : b = c := by omega
        subst this; simp [hab]
    · have hba : ¬ b < a := by
        intro hba; simp [hab, hba] at h1
      have hEq : a = b := by omega
      subst hEq
      simp only [Nat.lt_irrefl, if_false] at h1
      by_cases hac : a < c
      · simp [hac]
      · simp only [hac, if_false] at h2 ⊢
        by_cases hca : c < a
        · simp [hca] at h2
        · simp only [hca, if_false] at h2 ⊢
          exact codeUnitsLe_trans as bs cs h1 h2

theorem char_toNat_valid (c : Char) :
    c.toNat < 55296 ∨ (57343 < c.toNat ∧ c.toNat < 1114112) := c.valid

theorem char_eq_of_toNat_eq {c d : Char} (h : c.toNat = d.toNat) : c = d := by
  apply Char.ext
  apply UInt32.ext
  exact h

theorem toUTF16_injective : ∀ cs ds : List Char, toUTF16 cs = toUTF16 ds → cs = ds
  | [], [] => by simp
  | [], d :: ds => by
    simp only [toUTF16, utf16Units]
    split <;> simp
  | c :: cs, [] => by
    simp only [toUTF16, utf16Units]
    split <;> simp
  | c :: cs, d :: ds => by
    simp only [toUTF16, utf16Units]
    have hc := char_toNat_valid c
    have hd := char_toNat_valid d
    intro h
    by_cases h1 : c.toNat < 65536 <;> by_cases h2 : d.toNat < 65536 <;>
      simp only [h1, h2, if_true, if_false, List.cons_append, List.nil_append,
        List.cons.injEq] at h
    · rw [char_eq_of_toNat_eq h.1, toUTF16_injective cs ds h.2]
    · omega
    · omega
    · have : c.toNat = d.toNat := by omega
      rw [char_eq_of_toNat_eq this, toUTF16_injective cs ds h.2.2]

instance keyLe_isTotal : IsTotal String keyLe :=
  ⟨fun _ _ => codeUnitsLe_total _ _⟩

instance keyLe_isTrans : IsTrans String keyLe :=
  ⟨fun _ _ _ h1 h2 => codeUnitsLe_trans _ _ _ h1 h2⟩

instance keyLe_isAntisymm : IsAntisymm String keyLe :=
  ⟨fun a b h1 h2 => by
    have h := toUTF16_injective _ _ (codeUnitsLe_antisymm _ _ h1 h2)
    cases a; cases b; simp_all⟩

theorem sortKeys_eq_of_perm {k₁ k₂ : List String} (h : k₁.Perm k₂) :
    sortKeys k₁ = sortKeys k₂ :=
  List.eq_of_perm_of_sorted
    (((List.perm_insertionSort keyLe k₁).trans h).trans (List.perm_insertionSort keyLe k₂).symm)
    (List.sorted_insertionSort keyLe k₁) (List.sorted_insertionSort keyLe k₂)

/-! ## stableStringify does not depend on key order -/

theorem lookup_stableMembers (k : String) :
    ∀ es : List (String × JSValue),
      (stableMembers es).lookup k = (es.lookup k).map (fun v => concatText (stableStringify v))
  | [] => by simp [stableMembers]
  | (k', v) :: es => by
    simp only [stableMembers, List.lookup]
    cases h : (k == k') <;> simp [lookup_stableMembers k es]

theorem mem_keys_of_lookup {k : String} {w : JSValue} :
    ∀ {fs : List (String × JSValue)}, fs.lookup k = some w → k ∈ fs.map Prod.fst
  | [], h => by simp at h
  | (k', v) :: fs, h => by
    simp only [List.lookup] at h
    cases hk : (k == k') with
    | true => simp [beq_iff_eq.mp hk]
    | false =>
      rw [hk] at h
      simp [mem_keys_of_lookup h]

theorem lookup_of_mem_of_nodup {k : String} {v : JSValue} :
    ∀ {es : List (String × JSValue)}, (es.map Prod.fst).Nodup → (k, v) ∈ es →
      es.lookup k = some v
  | [], _, h => by simp at h
  | (k', v') :: es, hn, h => by
    simp only [List.map_cons, List.nodup_cons] at hn
    rcases List.mem_cons.mp h with heq | hin
    · injection heq with h1 h2
      subst h1 h2
      simp [List.lookup]
    · have hne : k ≠ k' := by
        intro hk
        subst hk
        exact hn.1 (List.mem_map.mpr ⟨(k, v), hin, rfl⟩)
      have hb : (k == k') = false := by simpa using hne
      simp only [List.lookup, hb]
      exact lookup_of_mem_of_nodup hn.2 hin

mutual
theorem stableStringify_congr :
    ∀ a b : JSValue, wellFormed a = true → sameContent a b = true →
      stableStringify a = stableStringify b
  | .arr xs, b, hw, h => by
    cases b with
    | arr ys =>
      simp only [sameContent] at h
      simp only [wellFormed] at hw
      simp only [stableStringify, stableItems_congr xs ys hw h]
    | _ => simp [sameContent] at h
  | .obj es, b, hw, h => by
    cases b with
    | obj fs =>
      simp only [sameContent] at h
      simp only [wellFormed, Bool.and_eq_true, decide_eq_true_eq] at hw
      simp only [Bool.and_eq_true, beq_iff_eq] at h
      have hmem := stableMembers_congr es fs hw.2 h.2
      have hsub : es.map Prod.fst ⊆ fs.map Prod.fst := by
        intro k hk
        obtain ⟨⟨k', v⟩, hkv, rfl⟩ := List.mem_map.mp hk
        obtain ⟨w, hw', _⟩ := hmem k' v hkv
        exact mem_keys_of_lookup hw'
      have hperm : (es.map Prod.fst).Perm (fs.map Prod.fst) :=
        (List.subperm_of_subset hw.1 hsub).perm_of_length_le (by simp [h.1])
      simp only [stableStringify, sortKeys_eq_of_perm hperm]
      congr 4
      apply List.map_congr_left
      intro k hk
      have hk' : k ∈ es.map Prod.fst :=
        hperm.symm.subset ((List.perm_insertionSort keyLe _).subset hk)
      obtain ⟨⟨k', v⟩, hkv, rfl⟩ := List.mem_map.mp hk'
      obtain ⟨w, hw', hvw⟩ := hmem k' v hkv
      have hl : es.lookup k' = some v := lookup_of_mem_of_nodup hw.1 hkv
      simp only [lookupText, lookup_stableMembers, hw', hl, Option.map_some', hvw]
    | _ => simp [sameContent] at h
  | .undefined, b, _, h => by cases b <;> simp_all [sameContent]
  | .null, b, _, h => by cases b <;> simp_all [sameContent]
  | .bool x, b, _, h => by cases b <;> simp_all [sameContent]
  | .num x, b, _, h => by cases b <;> simp_all [sameContent]
  | .str x, b, _, h => by cases b <;> simp_all [sameContent]
  | .date x, b, _, h => by cases b <;> simp_all [sameContent, stableStringify]
  | .fn x, b, _, h => by cases b <;> simp_all [sameContent, stableStringify, jsonStringify]
  | .dec _ _ _, b, _, h => by
    cases b <;> simp_all [sameContent, stableStringify, jsonStringify]
theorem stableItems_congr :
    ∀ xs ys : List JSValue, wellFormedItems xs = true → sameItems xs ys = true →
      stableItems xs = stableItems ys
  | [], ys, _, h => by
    cases ys <;> simp_all [sameItems, stableItems]
  | x :: xs, ys, hw, h => by
    cases ys with
    | nil => simp [sameItems] at h
    | cons y ys =>
      simp only [sameItems, Bool.and_eq_true] at h
      simp only [wellFormedItems, Bool.and_eq_true] at hw
      simp only [stableItems, stableStringify_congr x y hw.1 h.1,
        stableItems_congr xs ys hw.2 h.2]
theorem stableMembers_congr :
    ∀ es fs : List (String × JSValue), wellFormedMembers es = true →
      sameMembers es fs = true →
      ∀ k v, (k, v) ∈ es → ∃ w, fs.lookup k = some w ∧ stableStringify v = stableStringify w
  | [], _, _, _ => by simp
  | (k', v') :: es, fs, hw, h => by
    simp only [sameMembers, Bool.and_eq_true] at h
    simp only [wellFormedMembers, Bool.and_eq_true] at hw
    intro k v hkv
    rcases List.mem_cons.mp hkv with heq | hin
    · injection heq with h1 h2
      subst h1 h2
      cases hl : fs.lookup k with
      | none => rw [hl] at h; simp at h
      | some w =>
        rw [hl] at h
        exact ⟨w, rfl, stableStringify_congr v w hw.1 h.1⟩
    · exact stableMembers_congr es fs hw.2 h.2 k v hin
end

mutual
theorem sameContent_self : ∀ a : JSValue, wellFormed a = true → sameContent a a = true
  | .undefined, _ => by simp [sameContent]
  | .null, _ => by simp [sameContent]
  | .bool _, _ => by simp [sameContent]
  | .num _, _ => by simp [sameContent]
  | .str _, _ => by simp [sameContent]
  | .date _, _ => by simp [sameContent]
  | .fn _, _ => by simp [sameContent]
  | .dec _ _ _, _ => by simp [sameContent]
  | .arr xs, hw => by
    simp only [wellFormed] at hw
    simp only [sameContent, sameItems_self xs hw]
  | .obj es, hw => by
    simp only [wellFormed, Bool.and_eq_true, decide_eq_true_eq] at hw
    simp only [sameContent, beq_self_eq_true, Bool.true_and]
    exact sameMembers_of_lookup es es hw.2 (fun k v hkv => lookup_of_mem_of_nodup hw.1 hkv)
theorem sameItems_self : ∀ xs : List JSValue, wellFormedItems xs = true →
    sameItems xs xs = true
  | [], _ => by simp [sameItems]
  | x :: xs, hw => by
    simp only [wellFormedItems, Bool.and_eq_true] at hw
    simp [sameItems, sameContent_self x hw.1, sameItems_self xs hw.2]
theorem sameMembers_of_lookup : ∀ es fs : List (String × JSValue),
    wellFormedMembers es = true → (∀ k v, (k, v) ∈ es → fs.lookup k = some v) →
      sameMembers es fs = true
  | [], _, _, _ => by simp [sameMembers]
  | (k, v) :: es, fs, hw, h => by
    simp only [wellFormedMembers, Bool.and_eq_true] at hw
    have hk := h k v (List.mem_cons_self _ _)
    simp only [sameMembers, hk, sameContent_self v hw.1, Bool.true_and]
    exact sameMembers_of_lookup es fs hw.2 (fun k' v' hkv => h k' v' (List.mem_cons_of_mem _ hkv))
end

/-- Two objects built from the same key/value pairs in different orders have the
same content. -/
theorem sameContent_of_perm (a b : Row) (hw : wellFormed (.obj a) = true)
    (hperm : a.Perm b) : sameContent (.obj a) (.obj b) = true := by
  simp only [wellFormed, Bool.and_eq_true, decide_eq_true_eq] at hw
  have hnodup : (b.map Prod.fst).Nodup := (hperm.map Prod.fst).nodup_iff.mp hw.1
  simp only [sameContent, Bool.and_eq_true, beq_iff_eq]
  exact ⟨hperm.length_eq,
    sameMembers_of_lookup a b hw.2
      (fun k v hkv => lookup_of_mem_of_nodup hnodup (hperm.subset hkv))⟩

/-- In particular the text does not change when the entries of an object are put
in another order. -/
theorem stableStringify_perm (a b : Row) (hw : wellFormed (.obj a) = true)
    (hperm : a.Perm b) : stableStringify (.obj a) = stableStringify (.obj b) :=
  stableStringify_congr (.obj a) (.obj b) hw (sameContent_of_perm a b hw hperm)

/-- C1: two objects with the same keys and, under each key, values of the same
content at any depth (`sameContent`), the first one with pairwise distinct keys
at every level, have the same `stableStringify` text, whatever the order in
which their keys were inserted. -/
theorem stableStringify_key_order_independent (a b : Row)
    (hw : wellFormed (.obj a) = true) (h : sameContent (.obj a) (.obj b) = true) :
    stableStringify (.obj a) = stableStringify (.obj b) :=
  stableStringify_congr (.obj a) (.obj b) hw h

/-- C1, at the objects `\x7ba: 1, b: \x7bx: null, y: [true]\x7d\x7d` and
`\x7bb: \x7by: [true], x: null\x7d, a: 1\x7d`. -/
theorem stableStringify_key_order_independent_witness :
    wellFormed (.obj [("a", .num 1), ("b", .obj [("x", .null), ("y", .arr [.bool true])])])
        = true ∧
      sameContent (.obj [("a", .num 1), ("b", .obj [("x", .null), ("y", .arr [.bool true])])])
        (.obj [("b", .obj [("y", .arr [.bool true]), ("x", .null)]), ("a", .num 1)]) = true ∧
      stableStringify
          (.obj [("a", .num 1), ("b", .obj [("x", .null), ("y", .arr [.bool true])])]) =
        stableStringify
          (.obj [("b", .obj [("y", .arr [.bool true]), ("x", .null)]), ("a", .num 1)]) :=
  ⟨by decide, by decide,
    stableStringify_key_order_independent _ _ (by decide) (by decide)⟩

/-! ## stableStringify: when the result is a string -/

/-- C10, refuted as stated: `stableStringify(undefined)` is `undefined`, not a
string. -/
theorem stableStringify_undefined_not_a_string :
    ¬ ∃ text : String, stableStringify JSValue.undefined = some text := by
  simp [stableStringify, jsonStringify]

/-- C10, amended: `stableStringify` is a total function of its argument, so it
terminates, does not throw, and gives the same result on every call; the result
is a string exactly when the argument is neither `undefined` nor a function; for
`null` it is the literal `null`, for `undefined` it is `undefined`. -/
theorem stableStringify_string_iff (v : JSValue) :
    ((∃ text : String, stableStringify v = some text) ↔
        (v ≠ JSValue.undefined ∧ ∀ name : String, v ≠ JSValue.fn name)) ∧
      stableStringify JSValue.null = some "null" ∧
      stableStringify JSValue.undefined = none := by
  refine ⟨?_, by decide, by decide⟩
  cases v <;> simp [stableStringify, jsonStringify]

/-! ## prettify -/

/-- The lookup `prettyNames[key]` is not guarded against the members every
object inherits: for the name `constructor` it finds the inherited function and
`prettify` returns it.  The program never passes such a name: `prettify` is
local to the routing step and receives the keys of `newData` only. -/
theorem prettify_inherited_name :
    prettify toUpperCaseAscii "constructor" = JSValue.fn "constructor" := by
  decide

theorem prettyNames_truthy {key : String} {v : JSValue}
    (h : prettyNames.lookup key = some v) : truthy v = true := by
  simp only [prettyNames, List.lookup] at h
  repeat' split at h
  all_goals first
    | (injection h with h; subst h; decide)
    | (exact absurd h (by simp))

theorem splitUnderscore_ne_nil : ∀ cs : List Char, splitUnderscore cs ≠ []
  | [] => by simp [splitUnderscore]
  | c :: cs => by
    have ih := splitUnderscore_ne_nil cs
    simp only [splitUnderscore]
    split
    · simp
    · split <;> simp

theorem wordsOfName_eq : ∀ (cs word : List Char),
    wordsOfName word cs =
      match splitUnderscore cs with
      | w :: ws => (word.reverse ++ w) :: ws
      | [] => [word.reverse]
  | [], word => by simp [wordsOfName, splitUnderscore]
  | c :: cs, word => by
    have hne := splitUnderscore_ne_nil cs
    simp only [wordsOfName, splitUnderscore]
    split
    · rw [wordsOfName_eq cs []]
      cases hs : splitUnderscore cs with
      | nil => exact absurd hs hne
      | cons w ws => simp
    · rw [wordsOfName_eq cs (c :: word)]
      cases hs : splitUnderscore cs with
      | nil => exact absurd hs hne
      | cons w ws => simp

theorem wordsOfName_nil (cs : List Char) : wordsOfName [] cs = splitUnderscore cs := by
  rw [wordsOfName_eq]
  cases hs : splitUnderscore cs with
  | nil => exact absurd hs (splitUnderscore_ne_nil cs)
  | cons w ws => simp

theorem mem_of_mem_splitUnderscore : ∀ (cs w : List Char) (c : Char),
    w ∈ splitUnderscore cs → c ∈ w → c ∈ cs
  | [], w, c, hw, hc => by
    simp only [splitUnderscore, List.mem_singleton] at hw
    subst hw
    simp at hc
  | d :: cs, w, c, hw, hc => by
    simp only [splitUnderscore] at hw
    split at hw
    · rcases List.mem_cons.mp hw with rfl | hw
      · simp at hc
      · exact List.mem_cons_of_mem _ (mem_of_mem_splitUnderscore cs w c hw hc)
    · cases hs : splitUnderscore cs with
      | nil => exact absurd hs (splitUnderscore_ne_nil cs)
      | cons v vs =>
        rw [hs] at hw
        simp only at hw
        rcases List.mem_cons.mp hw with rfl | hw
        · rcases List.mem_cons.mp hc with rfl | hc
          · exact List.mem_cons_self _ _
          · exact List.mem_cons_of_mem _
              (mem_of_mem_splitUnderscore cs v c (by rw [hs]; exact List.mem_cons_self _ _) hc)
        · exact List.mem_cons_of_mem _
            (mem_of_mem_splitUnderscore cs w c (by rw [hs]; exact List.mem_cons_of_mem _ hw) hc)

theorem capitalize_eq_upperFirst (toUpperCase : String → String) (w : List Char)
    (hempty : toUpperCase "" = "") (hplane : ∀ c ∈ w, c.toNat < 65536) :
    capitalize toUpperCase w = upperFirst toUpperCase w := by
  cases w with
  | nil => simp only [capitalize, upperFirst, hempty]; rfl
  | cons c cs => simp [capitalize, upperFirst, hplane c (List.mem_cons_self _ _)]

theorem foldl_space_append (p : String) : ∀ (ws : List String) (w : String),
    ws.foldl (fun text x => text ++ " " ++ x) (p ++ w) =
      p ++ ws.foldl (fun text x => text ++ " " ++ x) w
  | [], _ => rfl
  | x :: ws, w => by
    simp only [List.foldl_cons]
    rw [← foldl_space_append p ws (w ++ " " ++ x)]
    simp only [String.append_assoc]

theorem joinWith_space : ∀ ws : List String, joinWith " " ws = joinBySpaces ws
  | [] => rfl
  | [w] => rfl
  | w :: x :: rest => by
    have ih := joinWith_space (x :: rest)
    simp only [joinBySpaces] at ih
    show w ++ " " ++ joinWith " " (x :: rest) =
      List.foldl (fun text x => text ++ " " ++ x) (w ++ " " ++ x) rest
    rw [ih]
    exact (foldl_space_append (w ++ " ") rest x).symm

theorem prettify_refines_spec (toUpperCase : String → String) (key : String)
    (hname : inheritedNames.contains key = false)
    (hempty : toUpperCase "" = "")
    (hplane : ∀ c ∈ key.data, c.toNat < 65536) :
    prettify toUpperCase key = prettifySpec toUpperCase key := by
  have h1 : objectPrototypeFunctions.contains key = false := by
    simp only [inheritedNames, List.contains_cons, Bool.or_eq_false_iff] at hname
    exact hname.2
  have h2 : (key == "__proto__") = false := by
    simp only [inheritedNames, List.contains_cons, Bool.or_eq_false_iff] at hname
    exact hname.1
  cases hl : prettyNames.lookup key with
  | some v =>
    have hg : getProp (.obj prettyNames) key = v := by
      simp only [getProp, hl]
    simp only [prettify, prettifySpec, hg, hl, prettyNames_truthy hl, if_true]
  | none =>
    have hg : getProp (.obj prettyNames) key = JSValue.undefined := by
      simp only [getProp, hl, h1, h2]
      simp
    have hwords : (splitUnderscore key.data).map (capitalize toUpperCase) =
        (wordsOfName [] key.data).map (upperFirst toUpperCase) := by
      rw [wordsOfName_nil]
      apply List.map_congr_left
      intro w hw
      exact capitalize_eq_upperFirst toUpperCase w hempty
        (fun c hc => hplane c (mem_of_mem_splitUnderscore key.data w c hw hc))
    simp only [prettify, prettifySpec, hg, hl, truthy, splitAndCapitalize, hwords,
      joinWith_space]
    simp

/-- C8: for every field name (a name that is not one of the member names every
object inherits, written in characters of the basic plane), `prettify` returns
the entry of the display-name table when the name is in the table, and otherwise
the name split at every underscore, the first character of each word
upper-cased, the words joined by single spaces; `toUpperCase` is any
upper-casing that maps the empty string to itself. -/
theorem prettify_eq_spec (toUpperCase : String → String) (key : String)
    (hname : inheritedNames.contains key = false)
    (hempty : toUpperCase "" = "")
    (hplane : ∀ c ∈ key.data, c.toNat < 65536) :
    prettify toUpperCase key = prettifySpec toUpperCase key :=
  prettify_refines_spec toUpperCase key hname hempty hplane

/-- C8, at the names `business_name` and `custom_field_x`. -/
theorem prettify_eq_spec_witness :
    (inheritedNames.contains "business_name" = false ∧
        toUpperCaseAscii "" = "" ∧
        (∀ c ∈ "business_name".data, c.toNat < 65536) ∧
        prettify toUpperCaseAscii "business_name" = prettifySpec toUpperCaseAscii "business_name" ∧
        prettifySpec toUpperCaseAscii "business_name" = JSValue.str "Business Name") ∧
      (inheritedNames.contains "custom_field_x" = false ∧
        (∀ c ∈ "custom_field_x".data, c.toNat < 65536) ∧
        prettify toUpperCaseAscii "custom_field_x" =
          prettifySpec toUpperCaseAscii "custom_field_x" ∧
        prettifySpec toUpperCaseAscii "custom_field_x" = JSValue.str "Custom Field X") :=
  ⟨⟨by decide, by decide, by decide,
      prettify_eq_spec toUpperCaseAscii "business_name" (by decide) (by decide) (by decide),
      by decide⟩,
    ⟨by decide, by decide,
      prettify_eq_spec toUpperCaseAscii "custom_field_x" (by decide) (by decide) (by decide),
      by decide⟩⟩

/-- Every key of `newData` is a field name in the sense above: on the names the
routing step passes, `prettify` is the humanizer of the specification. -/
theorem prettify_on_row_fields (toUpperCase : String → String)
    (hempty : toUpperCase "" = "") (gmbLocationId gmbLocationData : JSValue) (newData : Row)
    (hnew : buildNewData gmbLocationId gmbLocationData = .ok newData) :
    ∀ kv ∈ newData, prettify toUpperCase kv.1 = prettifySpec toUpperCase kv.1 := by
  have hkeys : newData.map Prod.fst =
      ["id", "business_name", "business_type", "language_code", "region_code", "postal_code",
        "sorting_code", "administrative_area", "locality", "sublocality", "address_lines",
        "recipients", "service_areas", "verification_status", "place_id", "maps_uri",
        "website_uri", "primary_phone", "primary_category", "additional_categories",
        "description", "regular_hours"] := by
    unfold buildNewData at hnew
    split at hnew
    · exact absurd hnew (by simp)
    · split at hnew
      · exact absurd hnew (by simp)
      · injection hnew with hnew
        subst hnew
        rfl
  have hall : ∀ key ∈ newData.map Prod.fst,
      inheritedNames.contains key = false ∧ ∀ c ∈ key.data, c.toNat < 65536 := by
    rw [hkeys]
    decide
  intro kv hkv
  have hk := hall kv.1 (List.mem_map.mpr ⟨kv, hkv, rfl⟩)
  exact prettify_refines_spec toUpperCase kv.1 hk.1 hempty hk.2

/-! ## The change router -/

theorem route_fst (toUpperCase : String → String) (store : Store) (ctx : RouteContext) :
    ∀ changes : List Change,
      (route toUpperCase store ctx changes).1 =
        changes.map (fun c =>
          if c.key == "verification_status" then statusHistoryRow ctx c
          else fieldHistoryRow toUpperCase ctx c)
  | [] => rfl
  | c :: rest => by
    simp only [route, List.map_cons]
    split <;> simp [route_fst toUpperCase store ctx rest]

theorem route_snd_of_no_status (toUpperCase : String → String) (store : Store)
    (ctx : RouteContext) :
    ∀ changes : List Change,
      (∀ c ∈ changes, (c.key == "verification_status") = false) →
        (route toUpperCase store ctx changes).2 = []
  | [], _ => rfl
  | c :: rest, h => by
    have hc := h c (List.mem_cons_self c rest)
    have hrest := route_snd_of_no_status toUpperCase store ctx rest
      (fun d hd => h d (List.mem_cons_of_mem c hd))
    simp [route, hc, hrest]

theorem route_snd_append (toUpperCase : String → String) (store : Store)
    (ctx : RouteContext) :
    ∀ before after : List Change,
      (route toUpperCase store ctx (before ++ after)).2 =
        (route toUpperCase store ctx before).2 ++ (route toUpperCase store ctx after).2
  | [], _ => rfl
  | c :: rest, after => by
    simp only [List.cons_append, route]
    split <;> simp [route_snd_append toUpperCase store ctx rest after]

theorem map_fieldHistoryRow_of_no_status (toUpperCase : String → String)
    (ctx : RouteContext) (changes : List Change)
    (h : ∀ c ∈ changes, (c.key == "verification_status") = false) :
    changes.map (fun c =>
        if c.key == "verification_status" then statusHistoryRow ctx c
        else fieldHistoryRow toUpperCase ctx c) =
      changes.map (fieldHistoryRow toUpperCase ctx) := by
  apply List.map_congr_left
  intro c hc
  simp [h c hc]

/-- C4: for a change list without a `verification_status` entry the router
produces no notification row and one history row per change entry, in the order
of the change list, each with `history_type_id` 2 and the payload
`JSON.stringify` of `field_that_changed: prettify(key)`,
`old_data: stableStringify(old)`, `new_data: stableStringify(new)`. -/
theorem route_field_changes (toUpperCase : String → String) (store : Store)
    (ctx : RouteContext) (changes : List Change)
    (h : ∀ c ∈ changes, (c.key == "verification_status") = false) :
    (route toUpperCase store ctx changes).2 = [] ∧
      (route toUpperCase store ctx changes).1 =
        changes.map (fun c =>
          [("gmb_id", ctx.gmbLocationId),
            ("history_type_id", JSValue.num 2),
            ("review_amount", JSValue.num ctx.count),
            ("data", textValue (jsonStringify (JSValue.obj
              [("field_that_changed", prettify toUpperCase c.key),
                ("old_data", textValue (stableStringify c.existingValue)),
                ("new_data", textValue (stableStringify c.newValue))])))]) := by
  refine ⟨route_snd_of_no_status toUpperCase store ctx changes h, ?_⟩
  rw [route_fst, map_fieldHistoryRow_of_no_status toUpperCase ctx changes h]
  rfl

/-- C4, at the change of `business_name` from `Old Name` to `New Name`: no
notification row, and one history row of type 2 whose payload names the field
`Business Name` and holds the serialized old and new names. -/
theorem route_field_changes_witness :
    (∀ c ∈ [nameChange], (c.key == "verification_status") = false) ∧
      (route toUpperCaseAscii emptyStore sampleContext [nameChange]).2 = [] ∧
      (route toUpperCaseAscii emptyStore sampleContext [nameChange]).1 =
        [[("gmb_id", JSValue.str "loc1"),
          ("history_type_id", JSValue.num 2),
          ("review_amount", JSValue.num 4),
          ("data", JSValue.str
            ("\x7b\"field_that_changed\":\"Business Name\"," ++
              "\"old_data\":\"\\\"Old Name\\\"\"," ++
              "\"new_data\":\"\\\"New Name\\\"\"\x7d"))]] :=
  ⟨by decide,
    (route_field_changes toUpperCaseAscii emptyStore sampleContext [nameChange]
      (by decide)).1,
    (route_field_changes toUpperCaseAscii emptyStore sampleContext [nameChange]
      (by decide)).2.trans (by decide)⟩

theorem getUserIds_of_falsy (organizationId : JSValue) (store : Store)
    (h : truthy organizationId = false) :
    getUserIdsByOrganizationId organizationId store = [] := by
  simp [getUserIdsByOrganizationId, h]

theorem getUserIds_of_truthy (organizationId : JSValue) (store : Store)
    (h : truthy organizationId = true) :
    getUserIdsByOrganizationId organizationId store =
      (store.usersOfOrganization organizationId).map
        (fun row => getProp (.obj row) "user_id") := by
  simp [getUserIdsByOrganizationId, h]

/-- C3: when the change list holds one `verification_status` change, whose old
and new status have the serialized texts `oldText` and `newText`, the router
produces one notification row per user id that `getUserIdsByOrganizationId`
returns, in that order, all with the same payload and notification type id, and
for that change one history row, with `history_type_id` 1 and a payload that
holds both texts; every other change gives its own history row of type 2. -/
theorem route_status_change (toUpperCase : String → String) (store : Store)
    (ctx : RouteContext) (before after : List Change) (c : Change)
    (oldText newText : String)
    (hkey : c.key = "verification_status")
    (hrest : ∀ d ∈ before ++ after, (d.key == "verification_status") = false)
    (hold : stableStringify c.existingValue = some oldText)
    (hnew : stableStringify c.newValue = some newText) :
    (route toUpperCase store ctx (before ++ c :: after)).2 =
        (getUserIdsByOrganizationId ctx.organization_id store).map (fun userId =>
          [("organization_id", ctx.organization_id),
            ("user_id", userId),
            ("data", textValue (jsonStringify (JSValue.obj
              [("gmb_id", ctx.gmbLocationId),
                ("gmb_name", ctx.title),
                ("old_status", c.existingValue),
                ("new_status", c.newValue)]))),
            ("notification_type_id", store.voiceOfMerchantTypeId)]) ∧
      (route toUpperCase store ctx (before ++ c :: after)).2.length =
        (getUserIdsByOrganizationId ctx.organization_id store).length ∧
      (route toUpperCase store ctx (before ++ c :: after)).1 =
        before.map (fieldHistoryRow toUpperCase ctx) ++
          [("gmb_id", ctx.gmbLocationId),
            ("history_type_id", JSValue.num 1),
            ("review_amount", JSValue.num ctx.count),
            ("data", JSValue.str
              ("\x7b" ++ (quote "old_status" ++ ":" ++ quote oldText ++ "," ++
                (quote "new_status" ++ ":" ++ quote newText)) ++ "\x7d"))] ::
          after.map (fieldHistoryRow toUpperCase ctx) := by
  have hb : ∀ d ∈ before, (d.key == "verification_status") = false :=
    fun d hd => hrest d (List.mem_append_left after hd)
  have ha : ∀ d ∈ after, (d.key == "verification_status") = false :=
    fun d hd => hrest d (List.mem_append_right before hd)
  have hc : (c.key == "verification_status") = true := by simp [hkey]
  have hsnd : (route toUpperCase store ctx (before ++ c :: after)).2 =
      (getUserIdsByOrganizationId ctx.organization_id store).map
        (notificationRow store ctx c) := by
    rw [route_snd_append, route_snd_of_no_status toUpperCase store ctx before hb]
    simp [route, hc, route_snd_of_no_status toUpperCase store ctx after ha]
  refine ⟨hsnd, by rw [hsnd, List.length_map], ?_⟩
  rw [route_fst, List.map_append, List.map_cons,
    map_fieldHistoryRow_of_no_status toUpperCase ctx before hb,
    map_fieldHistoryRow_of_no_status toUpperCase ctx after ha]
  simp [hc, statusHistoryRow, hold, hnew, textValue, jsonStringify, jsonMembers, joinWith]

/-- C3, at the change from `SOFT_SUSPENDED` to `VERIFIED` for an organization
with the users `u1` and `u2`: two notification rows and one history row of
type 1 that holds both statuses. -/
theorem route_status_change_witness :
    statusChange.key = "verification_status" ∧
      stableStringify statusChange.existingValue = some "\"SOFT_SUSPENDED\"" ∧
      stableStringify statusChange.newValue = some "\"VERIFIED\"" ∧
      getUserIdsByOrganizationId sampleContext.organization_id emptyStore =
        [JSValue.str "u1", JSValue.str "u2"] ∧
      (route toUpperCaseAscii emptyStore sampleContext [statusChange]).2.length = 2 ∧
      (route toUpperCaseAscii emptyStore sampleContext [statusChange]).1 =
        [[("gmb_id", JSValue.str "loc1"),
          ("history_type_id", JSValue.num 1),
          ("review_amount", JSValue.num 4),
          ("data", JSValue.str
            ("\x7b\"old_status\":\"\\\"SOFT_SUSPENDED\\\"\"," ++
              "\"new_status\":\"\\\"VERIFIED\\\"\"\x7d"))]] :=
  ⟨by decide, by decide, by decide, by decide,
    (route_status_change toUpperCaseAscii emptyStore sampleContext [] [] statusChange
      "\"SOFT_SUSPENDED\"" "\"VERIFIED\"" (by decide) (by decide) (by decide)
      (by decide)).2.1.trans (by decide),
    (route_status_change toUpperCaseAscii emptyStore sampleContext [] [] statusChange
      "\"SOFT_SUSPENDED\"" "\"VERIFIED\"" (by decide) (by decide) (by decide)
      (by decide)).2.2.trans (by decide)⟩

/-! ## The diff loop -/

theorem parseExisting_eq_decode (jsonParse : String → Option JSValue) (stored : JSValue) :
    parseExisting jsonParse stored = decode jsonParse stored := by
  cases stored <;> simp only [parseExisting, decode]
  split
  · cases jsonParse _ <;> rfl
  · rfl

/-- C5: for every existing row and every new row the diff loop, a total
function, returns exactly the fields of the new row, in the order of the new
row, for which `stableStringify(decode(existing[f]))` differs from
`stableStringify(new[f])`, each with the stored and the new value; `decode`
parses a stored string that begins with an opening brace as JSON and returns the
stored value unchanged when it is not such a string or when parsing fails. -/
theorem diffLoop_changes (jsonParse : String → Option JSValue) (stuffing : List JSValue)
    (existing newData : Row) :
    (diffLoop jsonParse stuffing existing newData).1 =
      changedFields jsonParse existing newData := by
  induction newData with
  | nil => rfl
  | cons kv rest ih =>
    obtain ⟨key, newValue⟩ := kv
    simp only [diffLoop, changedFields, List.filter_cons, fieldChanged,
      parseExisting_eq_decode]
    simp only [changedFields] at ih
    split
    · simp [ih]
    · exact ih

example :
    (diffLoop parseJSON [] [("a", .str "\x7b\"y\":1,\"x\":2\x7d"), ("b", .str "\x7bnot json"),
        ("c", .num 1)]
      [("a", .obj [("x", .num 2), ("y", .num 1)]), ("b", .str "\x7bnot json"),
        ("c", .num 2), ("d", .null)]).1.map (fun c => c.key) = ["c", "d"] := by
  decide

/-! ## One run of syncLocationDetailsToDatabase -/

theorem stuffingMessages_append (a b : List Effect) :
    stuffingMessages (a ++ b) = stuffingMessages a + stuffingMessages b := by
  induction a with
  | nil => simp [stuffingMessages]
  | cons e rest ih =>
    cases e with
    | send q m => cases q <;> simp [stuffingMessages, ih, Nat.add_assoc]
    | insert t r => simp [stuffingMessages, ih]
    | update t i r => simp [stuffingMessages, ih]

theorem stuffingMessages_insert_if (c : Prop) [Decidable c] (table : Table)
    (rows : List Row) :
    stuffingMessages (if c then [Effect.insert table rows] else []) = 0 := by
  split <;> simp [stuffingMessages]

theorem stuffingMessages_diffLoop (jsonParse : String → Option JSValue)
    (stuffing : List JSValue) (existing : Row) (hlen : stuffing.length = 1) :
    ∀ newData : Row,
      stuffingMessages (diffLoop jsonParse stuffing existing newData).2 =
        ((diffLoop jsonParse stuffing existing newData).1.filter
          (fun c => isStuffingField c.key)).length
  | [] => rfl
  | (key, newValue) :: rest => by
    have ih := stuffingMessages_diffLoop jsonParse stuffing existing hlen rest
    simp only [diffLoop]
    split
    · cases hk : isStuffingField key <;>
        simp [stuffingMessages, List.filter_cons, hk, ih, hlen, Nat.add_comm]
    · exact ih

theorem stuffing_changes_le (jsonParse : String → Option JSValue) (stuffing : List JSValue)
    (existing : Row) :
    ∀ newData : Row,
      ((diffLoop jsonParse stuffing existing newData).1.filter
          (fun c => isStuffingField c.key)).length ≤
        (newData.filter (fun kv => isStuffingField kv.1)).length
  | [] => by simp [diffLoop]
  | (key, newValue) :: rest => by
    have ih := stuffing_changes_le jsonParse stuffing existing rest
    simp only [diffLoop]
    split
    · cases hk : isStuffingField key <;> simp [List.filter_cons, hk] <;> omega
    · cases hk : isStuffingField key <;> simp [List.filter_cons, hk] <;> omega

theorem buildNewData_stuffing_fields {gmbLocationId gmbLocationData : JSValue}
    {newData : Row} (h : buildNewData gmbLocationId gmbLocationData = .ok newData) :
    (newData.filter (fun kv => isStuffingField kv.1)).length = 2 := by
  unfold buildNewData at h
  split at h
  · exact absurd h (by simp)
  · split at h
    · exact absurd h (by simp)
    · injection h with h
      subst h
      rfl

theorem sync_of_no_row (jsonParse : String → Option JSValue)
    (toUpperCase : String → String) (store : Store)
    (gmbLocationId gmbLocationData organization_id : JSValue) (newData : Row)
    (hnone : store.location gmbLocationId = none)
    (hdata : isNullish gmbLocationData = false)
    (hnew : buildNewData gmbLocationId gmbLocationData = .ok newData) :
    syncLocationDetailsToDatabase jsonParse toUpperCase store gmbLocationId
        gmbLocationData organization_id =
      .ok ((if !truthy (getProp gmbLocationData "business_name_keyword_stuffed_checked_at") then
            [Effect.send .keywordStuffing (gmbStuffingData gmbLocationId gmbLocationData)]
          else []) ++ [Effect.insert .gmbLocation [newData]]) := by
  simp only [syncLocationDetailsToDatabase, hnew, getPropStrict, hdata, hnone]
  rfl

theorem sync_of_changes (jsonParse : String → Option JSValue)
    (toUpperCase : String → String) (store : Store)
    (gmbLocationId gmbLocationData organization_id : JSValue) (newData existing : Row)
    (hsome : store.location gmbLocationId = some existing)
    (hdata : isNullish gmbLocationData = false)
    (hnew : buildNewData gmbLocationId gmbLocationData = .ok newData)
    (hch : (diffLoop jsonParse (gmbStuffingData gmbLocationId gmbLocationData) existing
      newData).1.length > 0) :
    syncLocationDetailsToDatabase jsonParse toUpperCase store gmbLocationId
        gmbLocationData organization_id =
      .ok ((if !truthy (getProp gmbLocationData "business_name_keyword_stuffed_checked_at") then
            [Effect.send .keywordStuffing (gmbStuffingData gmbLocationId gmbLocationData)]
          else []) ++
        (diffLoop jsonParse (gmbStuffingData gmbLocationId gmbLocationData) existing
          newData).2 ++
        [Effect.update .gmbLocation gmbLocationId newData,
          Effect.insert .history
            (route toUpperCase store
              ⟨gmbLocationId, optPath gmbLocationData ["title"], organization_id,
                store.liveReviewCount gmbLocationId⟩
              (diffLoop jsonParse (gmbStuffingData gmbLocationId gmbLocationData) existing
                newData).1).1] ++
        (if (route toUpperCase store
              ⟨gmbLocationId, optPath gmbLocationData ["title"], organization_id,
                store.liveReviewCount gmbLocationId⟩
              (diffLoop jsonParse (gmbStuffingData gmbLocationId gmbLocationData) existing
                newData).1).2.length > 0 then
          [Effect.insert .notification
            (route toUpperCase store
              ⟨gmbLocationId, optPath gmbLocationData ["title"], organization_id,
                store.liveReviewCount gmbLocationId⟩
              (diffLoop jsonParse (gmbStuffingData gmbLocationId gmbLocationData) existing
                newData).1).2]
        else [])) := by
  simp only [syncLocationDetailsToDatabase, hnew, getPropStrict, hdata, hsome, hch]
  rfl

theorem sync_of_no_changes (jsonParse : String → Option JSValue)
    (toUpperCase : String → String) (store : Store)
    (gmbLocationId gmbLocationData organization_id : JSValue) (newData existing : Row)
    (hsome : store.location gmbLocationId = some existing)
    (hdata : isNullish gmbLocationData = false)
    (hnew : buildNewData gmbLocationId gmbLocationData = .ok newData)
    (hch : ¬ (diffLoop jsonParse (gmbStuffingData gmbLocationId gmbLocationData) existing
      newData).1.length > 0) :
    syncLocationDetailsToDatabase jsonParse toUpperCase store gmbLocationId
        gmbLocationData organization_id =
      .ok ((if !truthy (getProp gmbLocationData "business_name_keyword_stuffed_checked_at") then
            [Effect.send .keywordStuffing (gmbStuffingData gmbLocationId gmbLocationData)]
          else []) ++
        (diffLoop jsonParse (gmbStuffingData gmbLocationId gmbLocationData) existing
          newData).2) := by
  simp only [syncLocationDetailsToDatabase, hnew, getPropStrict, hdata, hsome, hch]
  rfl

/-- C7: when the location table has no row for the id, a run on a fetched record
(an object from which `newData` can be built) performs, after the unconditional
keyword-stuffing send if the checked timestamp is unset, one insert of `newData`
into the location table and nothing else: no update, no history row and no
notification row. -/
theorem sync_new_location (jsonParse : String → Option JSValue)
    (toUpperCase : String → String) (store : Store)
    (gmbLocationId gmbLocationData organization_id : JSValue) (newData : Row)
    (hnone : store.location gmbLocationId = none)
    (hdata : isNullish gmbLocationData = false)
    (hnew : buildNewData gmbLocationId gmbLocationData = .ok newData) :
    ∃ effects : List Effect,
      syncLocationDetailsToDatabase jsonParse toUpperCase store gmbLocationId
          gmbLocationData organization_id = .ok effects ∧
        effects =
          (if !truthy (getProp gmbLocationData "business_name_keyword_stuffed_checked_at") then
              [Effect.send .keywordStuffing (gmbStuffingData gmbLocationId gmbLocationData)]
            else []) ++ [Effect.insert .gmbLocation [newData]] ∧
        insertedRows .gmbLocation effects = [newData] ∧
        updateCount .gmbLocation effects = 0 ∧
        insertedRows .history effects = [] ∧
        insertedRows .notification effects = [] := by
  refine ⟨_, sync_of_no_row jsonParse toUpperCase store gmbLocationId gmbLocationData
    organization_id newData hnone hdata hnew, rfl, ?_⟩
  · cases truthy (getProp gmbLocationData "business_name_keyword_stuffed_checked_at") <;>
      simp [insertedRows, updateCount]

/-- C7, at the fetched record `cafeLocation` and a store without rows. -/
theorem sync_new_location_witness :
    emptyStore.location (JSValue.str "loc1") = none ∧
      isNullish cafeLocation = false ∧
      buildNewData (JSValue.str "loc1") cafeLocation = .ok cafeRow ∧
      ∃ effects : List Effect,
        syncLocationDetailsToDatabase parseJSON toUpperCaseAscii emptyStore
            (JSValue.str "loc1") cafeLocation (JSValue.str "org1") = .ok effects ∧
          effects =
            (if !truthy (getProp cafeLocation "business_name_keyword_stuffed_checked_at") then
                [Effect.send .keywordStuffing (gmbStuffingData (JSValue.str "loc1") cafeLocation)]
              else []) ++ [Effect.insert .gmbLocation [cafeRow]] ∧
          insertedRows .gmbLocation effects = [cafeRow] ∧
          updateCount .gmbLocation effects = 0 ∧
          insertedRows .history effects = [] ∧
          insertedRows .notification effects = [] :=
  ⟨rfl, rfl, rfl,
    sync_new_location parseJSON toUpperCaseAscii emptyStore (JSValue.str "loc1") cafeLocation
      (JSValue.str "org1") cafeRow rfl rfl rfl⟩

/-- C9: on a fetched record (an object from which `newData` can be built), the
number of keyword-stuffing messages one run sends is 1 if the checked timestamp
of the record is unset and 0 otherwise, plus the number of change entries whose
field is `business_name` or `description`; that is at most three, and for a
location without an existing row it is the unconditional message alone. -/
theorem stuffing_message_count (jsonParse : String → Option JSValue)
    (toUpperCase : String → String) (store : Store)
    (gmbLocationId gmbLocationData organization_id : JSValue) (newData : Row)
    (hdata : isNullish gmbLocationData = false)
    (hnew : buildNewData gmbLocationId gmbLocationData = .ok newData) :
    ∃ effects : List Effect,
      syncLocationDetailsToDatabase jsonParse toUpperCase store gmbLocationId
          gmbLocationData organization_id = .ok effects ∧
        stuffingMessages effects =
          (if truthy (getProp gmbLocationData "business_name_keyword_stuffed_checked_at") then 0
            else 1) +
          (match store.location gmbLocationId with
            | none => 0
            | some existing =>
              ((diffLoop jsonParse (gmbStuffingData gmbLocationId gmbLocationData) existing
                newData).1.filter (fun c => isStuffingField c.key)).length) ∧
        stuffingMessages effects ≤ 3 := by
  have hfirst : stuffingMessages
      (if !truthy (getProp gmbLocationData "business_name_keyword_stuffed_checked_at") then
        [Effect.send .keywordStuffing (gmbStuffingData gmbLocationId gmbLocationData)]
      else []) =
      (if truthy (getProp gmbLocationData "business_name_keyword_stuffed_checked_at") then 0
        else 1) := by
    cases truthy (getProp gmbLocationData "business_name_keyword_stuffed_checked_at") <;>
      simp [stuffingMessages, gmbStuffingData]
  have hle : (if truthy (getProp gmbLocationData "business_name_keyword_stuffed_checked_at")
      then 0 else 1) ≤ 1 := by
    split <;> omega
  cases hloc : store.location gmbLocationId with
  | none =>
    refine ⟨_, sync_of_no_row jsonParse toUpperCase store gmbLocationId gmbLocationData
      organization_id newData hloc hdata hnew, ?_, ?_⟩
    · rw [stuffingMessages_append, hfirst]
      simp [stuffingMessages]
    · rw [stuffingMessages_append, hfirst]
      simp only [stuffingMessages]
      omega
  | some existing =>
    have hcount := stuffingMessages_diffLoop jsonParse
      (gmbStuffingData gmbLocationId gmbLocationData) existing (by simp [gmbStuffingData])
      newData
    have hbound := stuffing_changes_le jsonParse
      (gmbStuffingData gmbLocationId gmbLocationData) existing newData
    rw [buildNewData_stuffing_fields hnew] at hbound
    by_cases hch : (diffLoop jsonParse (gmbStuffingData gmbLocationId gmbLocationData)
        existing newData).1.length > 0
    · refine ⟨_, sync_of_changes jsonParse toUpperCase store gmbLocationId gmbLocationData
        organization_id newData existing hloc hdata hnew hch, ?_, ?_⟩
      · simp only [stuffingMessages_append, hfirst, hcount, stuffingMessages_insert_if,
          stuffingMessages, Nat.add_zero]
      · simp only [stuffingMessages_append, hfirst, hcount, stuffingMessages_insert_if,
          stuffingMessages, Nat.add_zero]
        omega
    · refine ⟨_, sync_of_no_changes jsonParse toUpperCase store gmbLocationId
        gmbLocationData organization_id newData existing hloc hdata hnew hch, ?_, ?_⟩
      · simp only [stuffingMessages_append, hfirst, hcount]
      · simp only [stuffingMessages_append, hfirst, hcount]
        omega

/-- C9, at the fetched record `cafeLocation`, whose checked timestamp is unset,
against a stored row with another name and another description: the run sends
three messages. -/
theorem stuffing_message_count_witness :
    isNullish cafeLocation = false ∧
      buildNewData (JSValue.str "loc1") cafeLocation = .ok cafeRow ∧
      (∃ effects : List Effect,
        syncLocationDetailsToDatabase parseJSON toUpperCaseAscii (storeWithLocation oldCafeRow)
            (JSValue.str "loc1") cafeLocation (JSValue.str "org1") = .ok effects ∧
          stuffingMessages effects = 3) :=
  ⟨rfl, rfl,
    (stuffing_message_count parseJSON toUpperCaseAscii (storeWithLocation oldCafeRow)
      (JSValue.str "loc1") cafeLocation (JSValue.str "org1") cafeRow rfl rfl).elim
      (fun effects h => ⟨effects, h.1, h.2.1.trans (by decide)⟩)⟩

/-- A whole run in which only the status changed, from `SOFT_SUSPENDED` to
`VERIFIED`, for an organization with two users: one update, one history row and
two notification rows are written, and one keyword-stuffing message is sent. -/
theorem sync_status_change_run :
    ∃ effects : List Effect,
      syncLocationDetailsToDatabase parseJSON toUpperCaseAscii
          (storeWithLocation suspendedCafeRow) (JSValue.str "loc1") cafeLocation
          (JSValue.str "org1") = .ok effects ∧
        updateCount .gmbLocation effects = 1 ∧
        (insertedRows .history effects).length = 1 ∧
        (insertedRows .notification effects).map (fun row => getProp (.obj row) "user_id") =
          [JSValue.str "u1", JSValue.str "u2"] ∧
        stuffingMessages effects = 1 :=
  ⟨_, rfl, by decide, by decide, by decide, by decide⟩

/-! ## A second run on unchanged data -/

/-- C2, refuted as stated: the fetched record whose title is the text of an empty
JSON object is stored by a first run and read back field by field as written;
the second run parses the stored title as JSON, finds `business_name` changed,
updates the row and inserts a history row. -/
theorem second_run_changes_brace_title :
    (∃ effects : List Effect,
        syncLocationDetailsToDatabase parseJSON toUpperCaseAscii emptyStore
            (JSValue.str "loc1") braceLocation (JSValue.str "org1") = .ok effects ∧
          insertedRows .gmbLocation effects = [braceRow]) ∧
      readBackAsStated braceRow braceRow = true ∧
      (∃ effects : List Effect,
        syncLocationDetailsToDatabase parseJSON toUpperCaseAscii (storeWithLocation braceRow)
            (JSValue.str "loc1") braceLocation (JSValue.str "org1") = .ok effects ∧
          updateCount .gmbLocation effects = 1 ∧
          (insertedRows .history effects).length = 1) :=
  ⟨⟨_, rfl, by decide⟩, by decide, ⟨_, rfl, by decide, by decide⟩⟩

theorem startsWithBrace_of_jsonStringify_obj {entries : Row} {text : String}
    (h : jsonStringify (.obj entries) = some text) : startsWithBrace text = true := by
  simp only [jsonStringify, Option.some.injEq] at h
  subst h
  simp [startsWithBrace, String.data_append]

theorem fieldChanged_of_fieldReadBack (jsonParse : String → Option JSValue)
    (written stored : JSValue) (h : fieldReadBack jsonParse written stored = true) :
    fieldChanged jsonParse stored written = false := by
  simp only [fieldReadBack, Bool.or_eq_true, Bool.and_eq_true] at h
  rcases h with ⟨heq, hself⟩ | hobj
  · have hs : stored = written := JSValue.eq_of_beq _ _ heq
    subst hs
    have hp : parseExisting jsonParse stored = stored := by
      cases stored <;> simp only [parseExisting]
      rename_i s
      simp only [decodesAsItself, Bool.not_eq_true', Bool.and_eq_false_iff] at hself
      rcases hself with hb | hn
      · simp [hb]
      · cases hj : jsonParse s with
        | none => simp
        | some v => simp [hj] at hn
    simp [fieldChanged, hp]
  · cases written with
    | obj entries =>
      cases stored with
      | str text =>
        simp only [objectReadBackAsText, Bool.and_eq_true, beq_iff_eq] at hobj
        obtain ⟨htext, hparse⟩ := hobj
        have hb := startsWithBrace_of_jsonStringify_obj htext
        cases hj : jsonParse text with
        | none => simp [hj] at hparse
        | some decoded =>
          simp only [hj, beq_iff_eq] at hparse
          simp [fieldChanged, parseExisting, hb, hj, hparse]
      | _ => simp [objectReadBackAsText] at hobj
    | _ => simp [objectReadBackAsText] at hobj

theorem diffLoop_of_unchanged (jsonParse : String → Option JSValue) (stuffing : List JSValue)
    (existing : Row) :
    ∀ newData : Row,
      (∀ kv ∈ newData, fieldChanged jsonParse (getProp (.obj existing) kv.1) kv.2 = false) →
        diffLoop jsonParse stuffing existing newData = ([], [])
  | [], _ => rfl
  | (key, newValue) :: rest, h => by
    have hhead := h (key, newValue) (List.mem_cons_self _ _)
    have htail := diffLoop_of_unchanged jsonParse stuffing existing rest
      (fun kv hkv => h kv (List.mem_cons_of_mem _ hkv))
    simp only at hhead
    simp [diffLoop, hhead, htail]

/-- C2, amended: when the stored row is the row built from the same fetched
record, each stored field read back equal to the written value (which then is
not a string that begins with an opening brace and that `JSON.parse` accepts),
or, for a written object, read back as its JSON text (which `JSON.parse` decodes
to a value with the same `stableStringify` text), the run finds no changed
field: it sends at most the unconditional keyword-stuffing message, performs no
update, and inserts no history row and no notification row. -/
theorem second_run_no_change (jsonParse : String → Option JSValue)
    (toUpperCase : String → String) (store : Store)
    (gmbLocationId gmbLocationData organization_id : JSValue) (newData existing : Row)
    (hsome : store.location gmbLocationId = some existing)
    (hdata : isNullish gmbLocationData = false)
    (hnew : buildNewData gmbLocationId gmbLocationData = .ok newData)
    (hread : rowReadBack jsonParse newData existing = true) :
    (diffLoop jsonParse (gmbStuffingData gmbLocationId gmbLocationData) existing
        newData).1 = [] ∧
      ∃ effects : List Effect,
        syncLocationDetailsToDatabase jsonParse toUpperCase store gmbLocationId
            gmbLocationData organization_id = .ok effects ∧
          effects =
            (if !truthy (getProp gmbLocationData "business_name_keyword_stuffed_checked_at")
              then [Effect.send .keywordStuffing (gmbStuffingData gmbLocationId gmbLocationData)]
              else []) ∧
          updateCount .gmbLocation effects = 0 ∧
          insertedRows .history effects = [] ∧
          insertedRows .notification effects = [] := by
  have hdiff : diffLoop jsonParse (gmbStuffingData gmbLocationId gmbLocationData) existing
      newData = ([], []) := by
    apply diffLoop_of_unchanged
    intro kv hkv
    simp only [rowReadBack, List.all_eq_true] at hread
    exact fieldChanged_of_fieldReadBack jsonParse _ _ (hread kv hkv)
  refine ⟨by rw [hdiff], _, sync_of_no_changes jsonParse toUpperCase store gmbLocationId
    gmbLocationData organization_id newData existing hsome hdata hnew (by simp [hdiff]), ?_, ?_⟩
  · simp [hdiff]
  · cases truthy (getProp gmbLocationData "business_name_keyword_stuffed_checked_at") <;>
      simp [hdiff, insertedRows, updateCount]

/-- C2, at the fetched record `cafeLocation` against the stored row that keeps
the opening hours as JSON text and the address lines as an array. -/
theorem second_run_no_change_witness :
    (storeWithLocation cafeRowAsStored).location (JSValue.str "loc1") = some cafeRowAsStored ∧
      isNullish cafeLocation = false ∧
      buildNewData (JSValue.str "loc1") cafeLocation = .ok cafeRow ∧
      rowReadBack parseJSON cafeRow cafeRowAsStored = true ∧
      ∃ effects : List Effect,
        syncLocationDetailsToDatabase parseJSON toUpperCaseAscii
            (storeWithLocation cafeRowAsStored) (JSValue.str "loc1") cafeLocation
            (JSValue.str "org1") = .ok effects ∧
          effects =
            (if !truthy (getProp cafeLocation "business_name_keyword_stuffed_checked_at")
              then [Effect.send .keywordStuffing (gmbStuffingData (JSValue.str "loc1") cafeLocation)]
              else []) ∧
          updateCount .gmbLocation effects = 0 ∧
          insertedRows .history effects = [] ∧
          insertedRows .notification effects = [] :=
  ⟨rfl, rfl, rfl, by decide,
    (second_run_no_change parseJSON toUpperCaseAscii (storeWithLocation cafeRowAsStored)
      (JSValue.str "loc1") cafeLocation (JSValue.str "org1") cafeRow cafeRowAsStored
      rfl rfl rfl (by decide)).2⟩

/-- An array read back as its JSON text is not decoded, since the text does not
begin with an opening brace (the comment at the decoding step names arrays as
well): the run finds `address_lines` changed, updates the row and inserts a
history row. -/
theorem second_run_changes_array_text :
    readBackAsStated cafeRow cafeRowWithArrayText = true ∧
      (∀ jsonParse : String → Option JSValue,
        (diffLoop jsonParse (gmbStuffingData (JSValue.str "loc1") cafeLocation)
          cafeRowWithArrayText cafeRow).1.map (fun c => c.key) = ["address_lines"]) ∧
      (∃ effects : List Effect,
        syncLocationDetailsToDatabase parseJSON toUpperCaseAscii
            (storeWithLocation cafeRowWithArrayText) (JSValue.str "loc1") cafeLocation
            (JSValue.str "org1") = .ok effects ∧
          updateCount .gmbLocation effects = 1 ∧
          (insertedRows .history effects).length = 1) :=
  ⟨by decide, fun _ => rfl, ⟨_, rfl, by decide, by decide⟩⟩

/-! ## A second pass over an unchanged review -/

/-- C6, on the code: the review `sampleReview` is inserted by a first pass on
1 January; the second pass, on 2 January, fetches it with every provider field
unchanged, finds `backed_up_date_time` changed, because that field of `newData`
is the reading of the clock, and updates the row. -/
theorem second_pass_updates_unchanged_review :
    syncReviewsToDatabase dateToISOCanonical emptyStore (JSValue.str "loc1")
        (fun _ => "2024-01-01T00:00:00.000Z") [sampleReview] =
        ([Effect.insert .gmbReview [sampleReviewRow "2024-01-01T00:00:00.000Z"]], none) ∧
      (reviewChanges dateToISOCanonical (sampleReviewRow "2024-01-01T00:00:00.000Z")
          (sampleReviewRow "2024-01-02T00:00:00.000Z")).toOption.map
          (fun changes => changes.map (fun c => c.key)) = some ["backed_up_date_time"] ∧
      syncReviewsToDatabase dateToISOCanonical
          (storeWithReview (sampleReviewRow "2024-01-01T00:00:00.000Z")) (JSValue.str "loc1")
          (fun _ => "2024-01-02T00:00:00.000Z") [sampleReview] =
        ([Effect.update .gmbReview (JSValue.str "r1")
          (sampleReviewRow "2024-01-02T00:00:00.000Z")], none) :=
  ⟨rfl, by decide, rfl⟩

theorem reviewChanges_ne_nil (dateToISO : String → Option String) (existing : Row)
    (key : String) (newValue : JSValue)
    (hne : ∀ a b : JSValue, normalize dateToISO newValue = .ok a →
      normalize dateToISO (getProp (.obj existing) key) = .ok b → strictEquals a b = false) :
    ∀ newData : Row, (key, newValue) ∈ newData →
      reviewChanges dateToISO existing newData ≠ .ok []
  | [], h => by simp at h
  | (k, v) :: rest, h => by
    simp only [reviewChanges]
    cases hn : normalize dateToISO v with
    | error e => simp
    | ok a =>
      cases he : normalize dateToISO (getProp (.obj existing) k) with
      | error e => simp
      | ok b =>
        cases ht : reviewChanges dateToISO existing rest with
        | error e => simp
        | ok tail =>
          simp only
          rcases List.mem_cons.mp h with heq | hin
          · injection heq with h1 h2
            subst h1 h2
            simp [hne a b hn he]
          · have ih := reviewChanges_ne_nil dateToISO existing key newValue hne rest hin
            rw [ht] at ih
            split
            · simp
            · exact ih

theorem normalize_str (dateToISO : String → Option String) (s : String) (a : JSValue)
    (h : normalize dateToISO (.str s) = .ok a) : ∃ t : String, a = .str t := by
  simp only [normalize] at h
  split at h
  · split at h
    · injection h with h
      exact ⟨_, h.symm⟩
    · exact absurd h (by simp)
  · injection h with h
    exact ⟨_, h.symm⟩

theorem reviewNewData_backed_up {gmbId review : JSValue} {now : String} {row : Row}
    (h : reviewNewData gmbId review now = .ok row) :
    getProp (.obj row) "backed_up_date_time" = .str now ∧
      ("backed_up_date_time", JSValue.str now) ∈ row := by
  simp only [reviewNewData] at h
  cases hid : getPropStrict review "reviewId" with
  | error e => simp [hid] at h
  | ok reviewId =>
    simp only [hid, Except.ok.injEq] at h
    subst h
    exact ⟨rfl, by simp⟩

theorem reviewNewData_ok {gmbId review : JSValue} {now1 : String} {row1 : Row}
    (h : reviewNewData gmbId review now1 = .ok row1) (now2 : String) :
    ∃ row2 : Row, reviewNewData gmbId review now2 = .ok row2 := by
  simp only [reviewNewData] at h ⊢
  cases hid : getPropStrict review "reviewId" with
  | error e => simp [hid] at h
  | ok reviewId => exact ⟨_, rfl⟩

/-- A second pass never finds a review up to date: against the row a first pass
built when the clock read `now1`, a pass whose clock reading `now2` normalizes
differently updates the row or throws; it never ends without a write. -/
theorem second_pass_never_up_to_date (dateToISO : String → Option String) (store : Store)
    (gmbId review : JSValue) (now1 now2 : String) (row1 : Row)
    (hfirst : reviewNewData gmbId review now1 = .ok row1)
    (hstore : store.review gmbId (getProp review "reviewId") = some row1)
    (hclock : normalize dateToISO (.str now1) ≠ normalize dateToISO (.str now2)) :
    syncReview dateToISO store gmbId review now2 ≠ .ok [] := by
  obtain ⟨row2, h2⟩ := reviewNewData_ok hfirst now2
  have hg := (reviewNewData_backed_up hfirst).1
  have hmem := (reviewNewData_backed_up h2).2
  have hne := reviewChanges_ne_nil dateToISO row1 "backed_up_date_time" (.str now2)
    (by
      intro a b ha hb
      rw [hg] at hb
      obtain ⟨ta, rfl⟩ := normalize_str dateToISO now2 a ha
      obtain ⟨tb, rfl⟩ := normalize_str dateToISO now1 b hb
      have hab : tb ≠ ta := by
        intro h
        subst h
        exact hclock (hb.trans ha.symm)
      simp only [strictEquals, beq_eq_false_iff_ne, ne_eq]
      exact fun h => hab h.symm)
    row2 hmem
  simp only [syncReview, h2, hstore]
  cases hc : reviewChanges dateToISO row1 row2 with
  | error e => simp
  | ok changes =>
    rw [hc] at hne
    cases changes with
    | nil => exact absurd rfl hne
    | cons c cs => simp

/-! ## stableStringify tells JSON values apart -/

/-! ### Decimal numerals -/

theorem digitChar_toNat : ∀ k : Nat, k < 10 → (Nat.digitChar k).toNat = 48 + k := by
  decide

theorem toDigitsCore_value :
    ∀ (fuel n : Nat) (ds : List Char), n < fuel →
      (Nat.toDigitsCore 10 fuel n ds).foldl (fun acc c => acc * 10 + (c.toNat - 48)) 0 =
        ds.foldl (fun acc c => acc * 10 + (c.toNat - 48)) n
  | 0, _, _, h => by omega
  | fuel + 1, n, ds, h => by
    have hd : (Nat.digitChar (n % 10)).toNat = 48 + n % 10 :=
      digitChar_toNat (n % 10) (Nat.mod_lt n (by omega))
    simp only [Nat.toDigitsCore]
    split
    · rename_i h0
      have hn : n % 10 = n := by omega
      simp only [List.foldl_cons, hd]
      congr 1
      omega
    · rename_i h0
      rw [toDigitsCore_value fuel (n / 10) _ (by omega)]
      simp only [List.foldl_cons, hd]
      congr 1
      omega

theorem toDigitsCore_digits :
    ∀ (fuel n : Nat) (ds : List Char), (∀ c ∈ ds, isDigit c = true) →
      ∀ c ∈ Nat.toDigitsCore 10 fuel n ds, isDigit c = true
  | 0, _, ds, h => by simpa [Nat.toDigitsCore] using h
  | fuel + 1, n, ds, h => by
    have hd : (Nat.digitChar (n % 10)).toNat = 48 + n % 10 :=
      digitChar_toNat (n % 10) (Nat.mod_lt n (by omega))
    have hdig : isDigit (Nat.digitChar (n % 10)) = true := by
      have := Nat.mod_lt n (show 10 > 0 by omega)
      simp only [isDigit, hd, Bool.and_eq_true, decide_eq_true_eq]
      omega
    have hcons : ∀ c ∈ Nat.digitChar (n % 10) :: ds, isDigit c = true := by
      intro c hc
      rcases List.mem_cons.mp hc with rfl | hc
      · exact hdig
      · exact h c hc
    simp only [Nat.toDigitsCore]
    split
    · exact hcons
    · exact toDigitsCore_digits fuel (n / 10) _ hcons

theorem toDigitsCore_ne_nil :
    ∀ (fuel n : Nat) (ds : List Char), 0 < fuel → Nat.toDigitsCore 10 fuel n ds ≠ []
  | 0, _, _, h => by omega
  | fuel + 1, n, ds, _ => by
    simp only [Nat.toDigitsCore]
    split
    · simp
    · cases fuel with
      | zero => simp [Nat.toDigitsCore]
      | succ f => exact toDigitsCore_ne_nil (f + 1) (n / 10) _ (by omega)

theorem repr_data (n : Nat) : (Nat.repr n).data = Nat.toDigits 10 n := rfl

theorem decimalValue_repr (n : Nat) : decimalValue (Nat.repr n).data = n := by
  rw [repr_data]
  simp only [decimalValue, Nat.toDigits]
  rw [toDigitsCore_value (n + 1) n [] (by omega)]
  rfl

theorem repr_digits (n : Nat) : ∀ c ∈ (Nat.repr n).data, isDigit c = true := by
  rw [repr_data]
  exact toDigitsCore_digits (n + 1) n [] (by simp)

theorem repr_ne_nil (n : Nat) : (Nat.repr n).data ≠ [] := by
  rw [repr_data]
  exact toDigitsCore_ne_nil (n + 1) n [] (by omega)

theorem digits_prefix_unique :
    ∀ (d e r s : List Char), (∀ c ∈ d, isDigit c = true) → (∀ c ∈ e, isDigit c = true) →
      noDigitAhead r = true → noDigitAhead s = true → d ++ r = e ++ s → d = e ∧ r = s
  | [], [], r, s, _, _, _, _, h => ⟨rfl, by simpa using h⟩
  | [], c :: e, r, s, _, he, hr, _, h => by
    simp only [List.nil_append, List.cons_append] at h
    subst h
    simp [noDigitAhead, he c (List.mem_cons_self _ _)] at hr
  | c :: d, [], r, s, hd, _, _, hs, h => by
    simp only [List.nil_append, List.cons_append] at h
    subst h
    simp [noDigitAhead, hd c (List.mem_cons_self _ _)] at hs
  | c :: d, c' :: e, r, s, hd, he, hr, hs, h => by
    simp only [List.cons_append, List.cons.injEq] at h
    obtain ⟨hc, ht⟩ := h
    have ih := digits_prefix_unique d e r s
      (fun x hx => hd x (List.mem_cons_of_mem _ hx))
      (fun x hx => he x (List.mem_cons_of_mem _ hx)) hr hs ht
    exact ⟨by rw [hc, ih.1], ih.2⟩

theorem numText_unique (n m : Int) (r s : List Char)
    (hr : noDigitAhead r = true) (hs : noDigitAhead s = true)
    (h : (numText n).data ++ r = (numText m).data ++ s) : n = m ∧ r = s := by
  have hminus : isDigit (Char.ofNat 45) = false := by decide
  have hhead : ∀ k : Nat, ∃ c tl, (Nat.repr k).data = c :: tl ∧ isDigit c = true := by
    intro k
    cases hk : (Nat.repr k).data with
    | nil => exact absurd hk (repr_ne_nil k)
    | cons c tl => exact ⟨c, tl, rfl, repr_digits k c (by rw [hk]; exact List.mem_cons_self _ _)⟩
  cases n with
  | ofNat a =>
    cases m with
    | ofNat b =>
      have h1 : (Nat.repr a).data ++ r = (Nat.repr b).data ++ s := h
      obtain ⟨hd, hrs⟩ := digits_prefix_unique _ _ r s (repr_digits a) (repr_digits b) hr hs h1
      have : a = b := by
        have := congrArg decimalValue hd
        rwa [decimalValue_repr, decimalValue_repr] at this
      exact ⟨by rw [this], hrs⟩
    | negSucc b =>
      have h1 : (Nat.repr a).data ++ r = Char.ofNat 45 :: ((Nat.repr (b + 1)).data ++ s) := h
      obtain ⟨c, tl, hc, hdig⟩ := hhead a
      rw [hc] at h1
      simp only [List.cons_append, List.cons.injEq] at h1
      rw [h1.1, hminus] at hdig
      exact absurd hdig (by simp)
  | negSucc a =>
    cases m with
    | ofNat b =>
      have h1 : Char.ofNat 45 :: ((Nat.repr (a + 1)).data ++ r) = (Nat.repr b).data ++ s := h
      obtain ⟨c, tl, hc, hdig⟩ := hhead b
      rw [hc] at h1
      simp only [List.cons_append, List.cons.injEq] at h1
      rw [← h1.1, hminus] at hdig
      exact absurd hdig (by simp)
    | negSucc b =>
      have h1 : Char.ofNat 45 :: ((Nat.repr (a + 1)).data ++ r) =
          Char.ofNat 45 :: ((Nat.repr (b + 1)).data ++ s) := h
      simp only [List.cons.injEq, true_and] at h1
      obtain ⟨hd, hrs⟩ := digits_prefix_unique _ _ r s (repr_digits (a + 1))
        (repr_digits (b + 1)) hr hs h1
      have : a + 1 = b + 1 := by
        have := congrArg decimalValue hd
        rwa [decimalValue_repr, decimalValue_repr] at this
      have hab : a = b := by omega
      exact ⟨by rw [hab], hrs⟩

/-! ### String literals -/

theorem hexValue_hexDigit : ∀ k : Nat, k < 16 → hexValue (hexDigit k) = some k := by
  decide

theorem char_of_toNat {c : Char} {n : Nat} (h : c.toNat = n) : c = Char.ofNat n := by
  rw [← h, Char.ofNat_toNat]

theorem unescapeHead_escapeChar (c : Char) (rest : List Char) :
    unescapeHead (escapeChar c ++ rest) = some (c, rest) := by
  by_cases h34 : c.toNat = 34
  · have hc := char_of_toNat h34
    subst hc
    rfl
  by_cases h92 : c.toNat = 92
  · have hc := char_of_toNat h92
    subst hc
    rfl
  by_cases h8 : c.toNat = 8
  · have hc := char_of_toNat h8
    subst hc
    rfl
  by_cases h12 : c.toNat = 12
  · have hc := char_of_toNat h12
    subst hc
    rfl
  by_cases h10 : c.toNat = 10
  · have hc := char_of_toNat h10
    subst hc
    rfl
  by_cases h13 : c.toNat = 13
  · have hc := char_of_toNat h13
    subst hc
    rfl
  by_cases h9 : c.toNat = 9
  · have hc := char_of_toNat h9
    subst hc
    rfl
  by_cases h32 : c.toNat < 32
  · have hq : c.toNat / 16 < 16 := by omega
    have hm : c.toNat % 16 < 16 := Nat.mod_lt _ (by omega)
    have hzero : hexValue (Char.ofNat 48) = some 0 := by decide
    have hsum : ((0 * 16 + 0) * 16 + c.toNat / 16) * 16 + c.toNat % 16 = c.toNat := by omega
    have hlt : c.toNat < 55296 := by omega
    simp only [escapeChar, h34, h92, h8, h12, h10, h13, h9, h32, if_false, if_true,
      List.cons_append, List.nil_append]
    have h1 : ((Char.ofNat 92).toNat == 92) = true := by decide
    have h2 : ((Char.ofNat 117).toNat == 117) = true := by decide
    simp only [unescapeHead, h1, h2, if_true, unicodeEscape, hzero, hexValue_hexDigit _ hq,
      hexValue_hexDigit _ hm, hsum, hlt, decide_True, Bool.true_or, Char.ofNat_toNat]
  · have hne : (c.toNat == 92) = false := by simpa using h92
    simp only [escapeChar, h34, h92, h8, h12, h10, h13, h9, h32, if_false,
      List.cons_append, List.nil_append, unescapeHead, hne]
    simp

theorem escapeChar_ne_quote (c : Char) (rest r : List Char) :
    escapeChar c ++ rest ≠ Char.ofNat 34 :: r := by
  intro h
  have hu := unescapeHead_escapeChar c rest
  rw [h] at hu
  have hq : unescapeHead (Char.ofNat 34 :: r) = some (Char.ofNat 34, r) := rfl
  rw [hq] at hu
  injection hu with hu
  injection hu with hc hr
  subst hc
  have he : escapeChar (Char.ofNat 34) = [Char.ofNat 92, Char.ofNat 34] := by decide
  rw [he] at h
  simp at h

theorem escapeChars_unique :
    ∀ (a b r s : List Char),
      escapeChars a ++ Char.ofNat 34 :: r = escapeChars b ++ Char.ofNat 34 :: s →
        a = b ∧ r = s
  | [], [], r, s, h => by simpa [escapeChars] using h
  | [], d :: b, r, s, h => by
    simp only [escapeChars, List.nil_append, List.append_assoc] at h
    exact absurd h.symm (escapeChar_ne_quote d _ r)
  | c :: a, [], r, s, h => by
    simp only [escapeChars, List.nil_append, List.append_assoc] at h
    exact absurd h (escapeChar_ne_quote c _ s)
  | c :: a, d :: b, r, s, h => by
    simp only [escapeChars, List.append_assoc] at h
    have hu := congrArg unescapeHead h
    rw [unescapeHead_escapeChar, unescapeHead_escapeChar] at hu
    injection hu with hu
    injection hu with hc ht
    obtain ⟨hab, hrs⟩ := escapeChars_unique a b r s ht
    exact ⟨by rw [hc, hab], hrs⟩

theorem quote_unique (k l : String) (r s : List Char)
    (h : (quote k).data ++ r = (quote l).data ++ s) : k = l ∧ r = s := by
  simp only [quote, List.cons_append, List.append_assoc, List.singleton_append,
    List.cons.injEq, true_and] at h
  obtain ⟨hd, hrs⟩ := escapeChars_unique k.data l.data r s h
  exact ⟨String.ext hd, hrs⟩

/-! ### Numerals with a point or an exponent -/

theorem prefix_unique (p : Char → Bool) :
    ∀ (d e r s : List Char), (∀ c ∈ d, p c = true) → (∀ c ∈ e, p c = true) →
      (∀ c rest, r = c :: rest → p c = false) → (∀ c rest, s = c :: rest → p c = false) →
      d ++ r = e ++ s → d = e ∧ r = s
  | [], [], r, s, _, _, _, _, h => ⟨rfl, by simpa using h⟩
  | [], c :: e, r, s, _, he, hr, _, h => by
    simp only [List.nil_append, List.cons_append] at h
    have := hr c _ h
    rw [he c (List.mem_cons_self _ _)] at this
    exact absurd this (by simp)
  | c :: d, [], r, s, hd, _, _, hs, h => by
    simp only [List.nil_append, List.cons_append] at h
    have := hs c _ h.symm
    rw [hd c (List.mem_cons_self _ _)] at this
    exact absurd this (by simp)
  | c :: d, c' :: e, r, s, hd, he, hr, hs, h => by
    simp only [List.cons_append, List.cons.injEq] at h
    obtain ⟨hc, ht⟩ := h
    have ih := prefix_unique p d e r s
      (fun x hx => hd x (List.mem_cons_of_mem _ hx))
      (fun x hx => he x (List.mem_cons_of_mem _ hx)) hr hs ht
    exact ⟨by rw [hc, ih.1], ih.2⟩

theorem noNumeralAhead_head {r : List Char} (h : noNumeralAhead r = true) :
    ∀ c rest, r = c :: rest → isNumeralChar c = false := by
  intro c rest hr
  subst hr
  simpa [noNumeralAhead] using h

theorem spanDigits_append : ∀ (digits rest : List Char),
    (∀ c ∈ digits, isDigit c = true) → noDigitAhead rest = true →
      spanDigits (digits ++ rest) = (digits, rest)
  | [], [], _, _ => rfl
  | [], c :: rest, _, h => by
    have hc : isDigit c = false := by simpa [noDigitAhead] using h
    simp [spanDigits, hc]
  | c :: digits, rest, hd, h => by
    have ih := spanDigits_append digits rest (fun x hx => hd x (List.mem_cons_of_mem _ hx)) h
    simp [spanDigits, hd c (List.mem_cons_self _ _), ih]

theorem spanDigits_digits (digits : List Char) (hd : ∀ c ∈ digits, isDigit c = true) :
    spanDigits digits = (digits, []) := by
  have := spanDigits_append digits [] hd rfl
  simpa using this

theorem decimalValue_zero_cons (digits : List Char) :
    decimalValue (Char.ofNat 48 :: digits) = decimalValue digits := by
  have h : (Char.ofNat 48).toNat = 48 := by decide
  simp [decimalValue, h]

theorem decimalValue_zeros_append : ∀ (m : Nat) (digits : List Char),
    decimalValue (zeros m ++ digits) = decimalValue digits
  | 0, _ => by simp [zeros]
  | m + 1, digits => by
    have ih := decimalValue_zeros_append m digits
    simp only [zeros] at ih
    simp only [zeros, List.replicate_succ, List.cons_append, decimalValue_zero_cons, ih]

theorem isDigit_zero : isDigit (Char.ofNat 48) = true := by decide

theorem zeros_digits (m : Nat) : ∀ c ∈ zeros m, isDigit c = true := by
  intro c hc
  simp only [zeros, List.mem_replicate] at hc
  rw [hc.2]
  exact isDigit_zero

theorem readExponent_exponentText (e : Int) :
    readExponent (Char.ofNat 101 :: exponentText e) = e := by
  have h101 : ((Char.ofNat 101).toNat == 101) = true := by decide
  have hminus : ((Char.ofNat 45).toNat == 45) = true := by decide
  have hplus : ((Char.ofNat 43).toNat == 45) = false := by decide
  have hspan := spanDigits_digits (Nat.repr e.natAbs).data (repr_digits e.natAbs)
  by_cases he : e < 0
  · simp only [exponentText, he, if_true, readExponent, h101, hminus, hspan,
      decimalValue_repr]
    omega
  · simp only [exponentText, he, if_false, readExponent, h101, hplus, hspan,
      decimalValue_repr, if_true]
    simp only [Bool.false_eq_true, if_false]
    omega

theorem noDigitAhead_point (rest : List Char) :
    noDigitAhead (Char.ofNat 46 :: rest) = true := by
  have : isDigit (Char.ofNat 46) = false := by decide
  simp [noDigitAhead, this]

theorem noDigitAhead_e (rest : List Char) :
    noDigitAhead (Char.ofNat 101 :: rest) = true := by
  have : isDigit (Char.ofNat 101) = false := by decide
  simp [noDigitAhead, this]

theorem readNumeral_numeral (ip : List Char) (fp : Option (List Char)) (ex : Option Int)
    (hip : ∀ c ∈ ip, isDigit c = true) (hfp : ∀ c ∈ fp.getD [], isDigit c = true) :
    readNumeral (numeral ip fp ex) =
      (decimalValue (ip ++ fp.getD []),
        ((Nat.repr (decimalValue (ip ++ fp.getD []))).data.length : Int) -
          ((fp.getD []).length : Int) + ex.getD 0) := by
  have h46 : ((Char.ofNat 46).toNat == 46) = true := by decide
  have h101 : ((Char.ofNat 101).toNat == 46) = false := by decide
  cases fp with
  | none =>
    cases ex with
    | none =>
      simp only [numeral, List.append_nil, readNumeral, spanDigits_digits ip hip,
        readFraction, readExponent, Option.getD_none, List.length_nil]
    | some e =>
      have hs := spanDigits_append ip (Char.ofNat 101 :: exponentText e) hip
        (noDigitAhead_e _)
      simp only [numeral, List.nil_append, readNumeral, hs, readFraction, h101,
        readExponent_exponentText, Option.getD_none, Option.getD_some, List.append_nil,
        List.length_nil]
      simp [readExponent_exponentText]
  | some f =>
    simp only [Option.getD_some] at hfp
    cases ex with
    | none =>
      have hs := spanDigits_append ip (Char.ofNat 46 :: f) hip (noDigitAhead_point _)
      simp only [numeral, List.append_nil, readNumeral, hs, readFraction, h46, if_true,
        spanDigits_digits f hfp, readExponent, Option.getD_some, Option.getD_none]
    | some e =>
      have hs := spanDigits_append ip
        (Char.ofNat 46 :: (f ++ Char.ofNat 101 :: exponentText e)) hip (noDigitAhead_point _)
      have hf := spanDigits_append f (Char.ofNat 101 :: exponentText e) hfp
        (noDigitAhead_e _)
      simp only [numeral, List.cons_append, readNumeral, hs, readFraction, h46, if_true, hf,
        readExponent_exponentText, Option.getD_some]

theorem isDigit_numeral {c : Char} (h : isDigit c = true) : isNumeralChar c = true := by
  simp [isNumeralChar, h]

theorem isDigit_plain {c : Char} (h : isDigit c = true) :
    c.toNat ≠ 46 ∧ c.toNat ≠ 101 ∧ c.toNat ≠ 45 := by
  simp only [isDigit, Bool.and_eq_true, decide_eq_true_eq] at h
  omega

theorem noDigitAhead_of_noNumeralAhead {r : List Char} (h : noNumeralAhead r = true) :
    noDigitAhead r = true := by
  cases r with
  | nil => rfl
  | cons c rest =>
    simp only [noNumeralAhead, isNumeralChar, Bool.not_eq_true', Bool.or_eq_false_iff] at h
    simp [noDigitAhead, h.1.1.1.1]

theorem exponentText_chars (e : Int) : ∀ c ∈ exponentText e, isNumeralChar c = true := by
  intro c hc
  simp only [exponentText, List.mem_cons] at hc
  rcases hc with hc | hc
  · subst hc
    split <;> decide
  · exact isDigit_numeral (repr_digits _ c hc)

theorem numeral_chars (ip : List Char) (fp : Option (List Char)) (ex : Option Int)
    (hip : ∀ c ∈ ip, isDigit c = true) (hfp : ∀ c ∈ fp.getD [], isDigit c = true) :
    ∀ c ∈ numeral ip fp ex, isNumeralChar c = true := by
  have hpoint : isNumeralChar (Char.ofNat 46) = true := by decide
  have he : isNumeralChar (Char.ofNat 101) = true := by decide
  intro c hc
  simp only [numeral, List.mem_append] at hc
  rcases hc with hc | hc | hc
  · exact isDigit_numeral (hip c hc)
  · cases fp with
    | none => simp at hc
    | some f =>
      simp only [List.mem_cons] at hc
      rcases hc with hc | hc
      · rw [hc]; exact hpoint
      · exact isDigit_numeral (hfp c (by simpa using hc))
  · cases ex with
    | none => simp at hc
    | some e =>
      simp only [List.mem_cons] at hc
      rcases hc with hc | hc
      · rw [hc]; exact he
      · exact exponentText_chars e c hc

theorem numeral_mark (ip : List Char) (fp : Option (List Char)) (ex : Option Int)
    (h : fp.isSome = true ∨ ex.isSome = true) :
    ∃ c ∈ numeral ip fp ex, c.toNat = 46 ∨ c.toNat = 101 := by
  cases fp with
  | some f =>
    exact ⟨Char.ofNat 46, by simp [numeral], Or.inl (by decide)⟩
  | none =>
    cases ex with
    | some e => exact ⟨Char.ofNat 101, by simp [numeral], Or.inr (by decide)⟩
    | none => simp at h

theorem numeral_head (ip : List Char) (fp : Option (List Char)) (ex : Option Int)
    (hip : ∀ c ∈ ip, isDigit c = true) (hne : ip ≠ []) :
    ∃ c tl, numeral ip fp ex = c :: tl ∧ isDigit c = true := by
  cases ip with
  | nil => exact absurd rfl hne
  | cons c tl => exact ⟨c, _, rfl, hip c (List.mem_cons_self _ _)⟩

theorem decimalBody_numeral (s : Nat) (n : Int) (h : isDecimalNumber s n = true) :
    ∃ (ip : List Char) (fp : Option (List Char)) (ex : Option Int),
      decimalBody s n = numeral ip fp ex ∧ (∀ c ∈ ip, isDigit c = true) ∧ ip ≠ [] ∧
      (∀ c ∈ fp.getD [], isDigit c = true) ∧ (fp.isSome = true ∨ ex.isSome = true) ∧
      decimalValue (ip ++ fp.getD []) = s ∧
      ((Nat.repr s).data.length : Int) - ((fp.getD []).length : Int) + ex.getD 0 = n := by
  have hform : ¬ (((Nat.repr s).data.length : Int) ≤ n ∧ n ≤ 21) := by
    intro hc
    have h1 : decide (((Nat.repr s).data.length : Int) ≤ n) = true := decide_eq_true hc.1
    have h2 : decide (n ≤ 21) = true := decide_eq_true hc.2
    rw [isDecimalNumber, h1, h2] at h
    simp at h
  have hdig := repr_digits s
  have hval := decimalValue_repr s
  have hne := repr_ne_nil s
  unfold decimalBody
  rw [if_neg hform]
  generalize (Nat.repr s).data = D at hform hdig hval hne ⊢
  have hlen : 0 < D.length := List.length_pos.mpr hne
  by_cases h2 : 0 < n ∧ n ≤ 21
  · rw [if_pos h2]
    have hn : (n.toNat : Int) = n := Int.toNat_of_nonneg (by omega)
    refine ⟨D.take n.toNat, some (D.drop n.toNat), none, by simp [numeral],
      fun c hc => hdig c (List.mem_of_mem_take hc), ?_,
      fun c hc => hdig c (List.mem_of_mem_drop (by simpa using hc)), Or.inl rfl, ?_, ?_⟩
    · intro h0
      have := congrArg List.length h0
      simp only [List.length_take, List.length_nil] at this
      omega
    · simp only [Option.getD_some, List.take_append_drop]
      exact hval
    · simp only [Option.getD_some, Option.getD_none, List.length_drop]
      omega
  · rw [if_neg h2]
    by_cases h3 : -6 < n ∧ n ≤ 0
    · rw [if_pos h3]
      have hn : (((-n).toNat : Nat) : Int) = -n := Int.toNat_of_nonneg (by omega)
      refine ⟨[Char.ofNat 48], some (zeros (-n).toNat ++ D), none, by simp [numeral], ?_,
        by simp, ?_, Or.inl rfl, ?_, ?_⟩
      · intro c hc
        simp only [List.mem_singleton] at hc
        rw [hc]
        exact isDigit_zero
      · intro c hc
        simp only [Option.getD_some, List.mem_append] at hc
        rcases hc with hc | hc
        · exact zeros_digits _ c hc
        · exact hdig c hc
      · show decimalValue (Char.ofNat 48 :: (zeros (-n).toNat ++ D)) = s
        rw [decimalValue_zero_cons, decimalValue_zeros_append, hval]
      · have hz : (zeros (-n).toNat).length = (-n).toNat := by simp [zeros]
        simp only [Option.getD_some, Option.getD_none, List.length_append, hz]
        omega
    · rw [if_neg h3]
      cases D with
      | nil => exact absurd rfl hne
      | cons d rest =>
        cases rest with
        | nil =>
          refine ⟨[d], none, some (n - 1), rfl, hdig, by simp, by simp, Or.inr rfl, ?_, ?_⟩
          · simpa using hval
          · simp only [Option.getD_some, Option.getD_none, List.length_cons, List.length_nil]
            omega
        | cons d2 rest =>
          refine ⟨[d], some (d2 :: rest), some (n - 1), rfl, ?_, by simp, ?_, Or.inl rfl,
            ?_, ?_⟩
          · intro c hc
            exact hdig c (by
              simp only [List.mem_singleton] at hc
              rw [hc]
              exact List.mem_cons_self _ _)
          · intro c hc
            exact hdig c (List.mem_cons_of_mem _ (by simpa using hc))
          · simpa using hval
          · simp only [Option.getD_some, List.length_cons]
            omega

theorem readNumeral_decimalBody (s : Nat) (n : Int) (h : isDecimalNumber s n = true) :
    readNumeral (decimalBody s n) = (s, n) := by
  obtain ⟨ip, fp, ex, hb, hip, _, hfp, _, hval, hexp⟩ := decimalBody_numeral s n h
  rw [hb, readNumeral_numeral ip fp ex hip hfp, hval, hexp]

theorem decText_data (negative : Bool) (s : Nat) (n : Int)
    (h : isDecimalNumber s n = true) :
    (decText negative s n).data =
      (if negative then [Char.ofNat 45] else []) ++ decimalBody s n := by
  have hs : s ≠ 0 := by
    intro h0
    simp [isDecimalNumber, h0] at h
  simp only [decText, hs, if_false]

theorem decText_chars (negative : Bool) (s : Nat) (n : Int)
    (h : isDecimalNumber s n = true) :
    ∀ c ∈ (decText negative s n).data, isNumeralChar c = true := by
  obtain ⟨ip, fp, ex, hb, hip, _, hfp, _, _, _⟩ := decimalBody_numeral s n h
  have hminus : isNumeralChar (Char.ofNat 45) = true := by decide
  intro c hc
  rw [decText_data negative s n h, List.mem_append] at hc
  rcases hc with hc | hc
  · cases negative with
    | false => simp at hc
    | true =>
      simp only [if_true, List.mem_singleton] at hc
      rw [hc]
      exact hminus
  · rw [hb] at hc
    exact numeral_chars ip fp ex hip hfp c hc

theorem decText_mark (negative : Bool) (s : Nat) (n : Int)
    (h : isDecimalNumber s n = true) :
    ∃ c ∈ (decText negative s n).data, c.toNat = 46 ∨ c.toNat = 101 := by
  obtain ⟨ip, fp, ex, hb, _, _, _, hsome, _, _⟩ := decimalBody_numeral s n h
  obtain ⟨c, hc, hmark⟩ := numeral_mark ip fp ex hsome
  refine ⟨c, ?_, hmark⟩
  rw [decText_data negative s n h, hb]
  exact List.mem_append_right _ hc

theorem decimalBody_head (s : Nat) (n : Int) (h : isDecimalNumber s n = true) :
    ∃ c tl, decimalBody s n = c :: tl ∧ isDigit c = true := by
  obtain ⟨ip, fp, ex, hb, hip, hne, _, _, _, _⟩ := decimalBody_numeral s n h
  rw [hb]
  exact numeral_head ip fp ex hip hne

theorem numText_chars (n : Int) :
    ∀ c ∈ (numText n).data, isNumeralChar c = true ∧ c.toNat ≠ 46 ∧ c.toNat ≠ 101 := by
  have hminus : isNumeralChar (Char.ofNat 45) = true ∧ (Char.ofNat 45).toNat ≠ 46 ∧
      (Char.ofNat 45).toNat ≠ 101 := by decide
  intro c hc
  cases n with
  | ofNat a =>
    have hc1 : c ∈ (Nat.repr a).data := hc
    have hd := repr_digits a c hc1
    exact ⟨isDigit_numeral hd, (isDigit_plain hd).1, (isDigit_plain hd).2.1⟩
  | negSucc a =>
    have hc1 : c ∈ Char.ofNat 45 :: (Nat.repr (a + 1)).data := hc
    simp only [List.mem_cons] at hc1
    rcases hc1 with hc1 | hc1
    · rw [hc1]
      exact hminus
    · have hd := repr_digits (a + 1) c hc1
      exact ⟨isDigit_numeral hd, (isDigit_plain hd).1, (isDigit_plain hd).2.1⟩

theorem decText_unique (neg neg' : Bool) (s s' : Nat) (n n' : Int) (r r' : List Char)
    (h : isDecimalNumber s n = true) (h' : isDecimalNumber s' n' = true)
    (hr : noNumeralAhead r = true) (hr' : noNumeralAhead r' = true)
    (heq : (decText neg s n).data ++ r = (decText neg' s' n').data ++ r') :
    (neg = neg' ∧ s = s' ∧ n = n') ∧ r = r' := by
  obtain ⟨ht, hrr⟩ := prefix_unique isNumeralChar _ _ r r' (decText_chars neg s n h)
    (decText_chars neg' s' n' h') (noNumeralAhead_head hr) (noNumeralAhead_head hr') heq
  refine ⟨?_, hrr⟩
  rw [decText_data neg s n h, decText_data neg' s' n' h'] at ht
  have hminus : isDigit (Char.ofNat 45) = false := by decide
  have hbody : decimalBody s n = decimalBody s' n' → s = s' ∧ n = n' := by
    intro hb
    have := congrArg readNumeral hb
    rw [readNumeral_decimalBody s n h, readNumeral_decimalBody s' n' h'] at this
    exact ⟨congrArg Prod.fst this, congrArg Prod.snd this⟩
  cases neg with
  | false =>
    cases neg' with
    | false =>
      simp only [Bool.false_eq_true, if_false, List.nil_append] at ht
      exact ⟨rfl, hbody ht⟩
    | true =>
      simp only [Bool.false_eq_true, if_false, if_true, List.nil_append,
        List.singleton_append] at ht
      obtain ⟨c, tl, hc, hd⟩ := decimalBody_head s n h
      rw [hc, List.cons.injEq] at ht
      rw [ht.1, hminus] at hd
      exact absurd hd (by simp)
  | true =>
    cases neg' with
    | false =>
      simp only [Bool.false_eq_true, if_false, if_true, List.nil_append,
        List.singleton_append] at ht
      obtain ⟨c, tl, hc, hd⟩ := decimalBody_head s' n' h'
      rw [hc, List.cons.injEq] at ht
      rw [← ht.1, hminus] at hd
      exact absurd hd (by simp)
    | true =>
      simp only [if_true, List.singleton_append, List.cons.injEq, true_and] at ht
      exact ⟨rfl, hbody ht⟩

theorem numText_ne_decText (m : Int) (neg : Bool) (s : Nat) (n : Int) (r r' : List Char)
    (h : isDecimalNumber s n = true)
    (hr : noNumeralAhead r = true) (hr' : noNumeralAhead r' = true) :
    (numText m).data ++ r ≠ (decText neg s n).data ++ r' := by
  intro heq
  obtain ⟨ht, _⟩ := prefix_unique isNumeralChar _ _ r r' (fun c hc => (numText_chars m c hc).1)
    (decText_chars neg s n h) (noNumeralAhead_head hr) (noNumeralAhead_head hr') heq
  obtain ⟨c, hc, hmark⟩ := decText_mark neg s n h
  rw [← ht] at hc
  have := numText_chars m c hc
  rcases hmark with hmark | hmark
  · exact this.2.1 hmark
  · exact this.2.2 hmark

/-! ### Bracketed lists -/

theorem delimited_cons (close : Char) (rest : List Char) (x : List Char)
    (more : List (List Char)) :
    delimited close rest (x :: more) = x ++ afterItem close rest more := by
  cases more <;> rfl

theorem noNumeralAhead_afterItem (close : Char) (hclose : isNumeralChar close = false)
    (rest : List Char) (more : List (List Char)) :
    noNumeralAhead (afterItem close rest more) = true := by
  cases more with
  | nil => simp [afterItem, noNumeralAhead, hclose]
  | cons y ys =>
    have : isNumeralChar (Char.ofNat 44) = false := by decide
    simp [afterItem, noNumeralAhead, this]

theorem delimited_unique {α β : Type} (f : α → List Char) (g : β → List Char)
    (R : α → β → Prop) (close : Char) (hdigit : isNumeralChar close = false)
    (hcomma : close ≠ Char.ofNat 44) :
    ∀ (xs : List α) (ys : List β) (r s : List Char),
      (∀ x ∈ xs, ∀ y ∈ ys, ∀ r' s' : List Char, noNumeralAhead r' = true →
        noNumeralAhead s' = true → f x ++ r' = g y ++ s' → R x y ∧ r' = s') →
      (∀ x ∈ xs, ∀ r' s' : List Char, f x ++ r' ≠ close :: s') →
      (∀ y ∈ ys, ∀ r' s' : List Char, g y ++ r' ≠ close :: s') →
      delimited close r (xs.map f) = delimited close s (ys.map g) →
        List.Forall₂ R xs ys ∧ r = s
  | [], [], r, s, _, _, _, h => by
    simp only [List.map_nil, delimited, List.cons.injEq, true_and] at h
    exact ⟨List.Forall₂.nil, h⟩
  | [], y :: ys, r, s, _, _, hy, h => by
    simp only [List.map_nil, List.map_cons, delimited_cons] at h
    simp only [delimited] at h
    exact absurd h.symm (hy y (List.mem_cons_self _ _) _ r)
  | x :: xs, [], r, s, _, hx, _, h => by
    simp only [List.map_nil, List.map_cons, delimited_cons] at h
    simp only [delimited] at h
    exact absurd h (hx x (List.mem_cons_self _ _) _ s)
  | x :: xs, y :: ys, r, s, hitem, hx, hy, h => by
    simp only [List.map_cons, delimited_cons] at h
    obtain ⟨hR, hrest⟩ := hitem x (List.mem_cons_self _ _) y (List.mem_cons_self _ _) _ _
      (noNumeralAhead_afterItem close hdigit r _)
      (noNumeralAhead_afterItem close hdigit s _) h
    cases xs with
    | nil =>
      cases ys with
      | nil =>
        simp only [List.map_nil, afterItem, List.cons.injEq, true_and] at hrest
        exact ⟨List.Forall₂.cons hR List.Forall₂.nil, hrest⟩
      | cons y' ys' =>
        simp only [List.map_nil, List.map_cons, afterItem, List.cons.injEq] at hrest
        exact absurd hrest.1 hcomma
    | cons x' xs' =>
      cases ys with
      | nil =>
        simp only [List.map_nil, List.map_cons, afterItem, List.cons.injEq] at hrest
        exact absurd hrest.1.symm hcomma
      | cons y' ys' =>
        simp only [List.map_cons, afterItem, List.cons.injEq, true_and] at hrest
        have ih := delimited_unique f g R close hdigit hcomma (x' :: xs') (y' :: ys') r s
          (fun a ha b hb => hitem a (List.mem_cons_of_mem _ ha) b (List.mem_cons_of_mem _ hb))
          (fun a ha => hx a (List.mem_cons_of_mem _ ha))
          (fun b hb => hy b (List.mem_cons_of_mem _ hb))
          (by simpa only [List.map_cons] using hrest)
        exact ⟨List.Forall₂.cons hR ih.1, ih.2⟩

theorem joinWith_data (close : Char) (rest : List Char) :
    ∀ texts : List String,
      (joinWith "," texts).data ++ close :: rest =
        delimited close rest (texts.map String.data)
  | [] => rfl
  | [t] => rfl
  | t :: u :: more => by
    have ih := joinWith_data close rest (u :: more)
    simp only [joinWith, String.data_append, List.append_assoc, List.map_cons, delimited]
    simp only [List.map_cons] at ih
    rw [← ih]
    rfl

/-! ### The text of a JSON value -/

mutual
theorem JSValue.induction {P : JSValue → Prop}
    (leaf : ∀ v : JSValue, valueKind v ≠ 5 → valueKind v ≠ 6 → P v)
    (array : ∀ xs : List JSValue, (∀ x ∈ xs, P x) → P (.arr xs))
    (object : ∀ es : List (String × JSValue), (∀ kv ∈ es, P kv.2) → P (.obj es)) :
    ∀ v : JSValue, P v
  | .undefined => leaf _ (by simp [valueKind]) (by simp [valueKind])
  | .null => leaf _ (by simp [valueKind]) (by simp [valueKind])
  | .bool b => leaf _ (by cases b <;> simp [valueKind]) (by cases b <;> simp [valueKind])
  | .num _ => leaf _ (by simp [valueKind]) (by simp [valueKind])
  | .str _ => leaf _ (by simp [valueKind]) (by simp [valueKind])
  | .date _ => leaf _ (by simp [valueKind]) (by simp [valueKind])
  | .fn _ => leaf _ (by simp [valueKind]) (by simp [valueKind])
  | .dec _ _ _ => leaf _ (by simp [valueKind]) (by simp [valueKind])
  | .arr xs => array xs (JSValue.induction_items leaf array object xs)
  | .obj es => object es (JSValue.induction_members leaf array object es)
theorem JSValue.induction_items {P : JSValue → Prop}
    (leaf : ∀ v : JSValue, valueKind v ≠ 5 → valueKind v ≠ 6 → P v)
    (array : ∀ xs : List JSValue, (∀ x ∈ xs, P x) → P (.arr xs))
    (object : ∀ es : List (String × JSValue), (∀ kv ∈ es, P kv.2) → P (.obj es)) :
    ∀ xs : List JSValue, ∀ x ∈ xs, P x
  | [], _, h => by simp at h
  | y :: ys, x, h => by
    rcases List.mem_cons.mp h with rfl | h
    · exact JSValue.induction leaf array object x
    · exact JSValue.induction_items leaf array object ys x h
theorem JSValue.induction_members {P : JSValue → Prop}
    (leaf : ∀ v : JSValue, valueKind v ≠ 5 → valueKind v ≠ 6 → P v)
    (array : ∀ xs : List JSValue, (∀ x ∈ xs, P x) → P (.arr xs))
    (object : ∀ es : List (String × JSValue), (∀ kv ∈ es, P kv.2) → P (.obj es)) :
    ∀ es : List (String × JSValue), ∀ kv ∈ es, P kv.2
  | [], _, h => by simp at h
  | (k, v) :: es, kv, h => by
    rcases List.mem_cons.mp h with rfl | h
    · exact JSValue.induction leaf array object v
    · exact JSValue.induction_members leaf array object es kv h
end

theorem json_has_text (v : JSValue) (h : isJson v = true) :
    ∃ t : String, stableStringify v = some t := by
  cases v <;> simp_all [isJson, stableStringify, jsonStringify]

theorem isJson_of_mem_items : ∀ (xs : List JSValue) (x : JSValue),
    isJsonItems xs = true → x ∈ xs → isJson x = true
  | [], _, _, h => by simp at h
  | y :: ys, x, hj, h => by
    simp only [isJsonItems, Bool.and_eq_true] at hj
    rcases List.mem_cons.mp h with rfl | h
    · exact hj.1
    · exact isJson_of_mem_items ys x hj.2 h

theorem isJson_of_mem_members : ∀ (es : List (String × JSValue)) (k : String) (v : JSValue),
    isJsonMembers es = true → (k, v) ∈ es → isJson v = true
  | [], _, _, _, h => by simp at h
  | (k', v') :: es, k, v, hj, h => by
    simp only [isJsonMembers, Bool.and_eq_true] at hj
    rcases List.mem_cons.mp h with heq | h
    · injection heq with h1 h2
      subst h2
      exact hj.1
    · exact isJson_of_mem_members es k v hj.2 h

theorem headKind_of_digit (c : Char) (h : isDigit c = true) : headKind c = 3 := by
  simp only [isDigit, Bool.and_eq_true, decide_eq_true_eq] at h
  have h1 : c.toNat ≠ 110 := by omega
  have h2 : c.toNat ≠ 116 := by omega
  have h3 : c.toNat ≠ 102 := by omega
  have hd : isDigit c = true := by
    simp only [isDigit, Bool.and_eq_true, decide_eq_true_eq]
    exact h
  simp [headKind, h1, h2, h3, hd]

theorem head_kind (v : JSValue) (t : String) (hj : isJson v = true)
    (ht : stableStringify v = some t) :
    ∃ (c : Char) (tl : List Char), t.data = c :: tl ∧ headKind c = valueKind v := by
  cases v with
  | undefined => simp [isJson] at hj
  | date _ => simp [isJson] at hj
  | fn _ => simp [isJson] at hj
  | null =>
    simp only [stableStringify, jsonStringify, Option.some.injEq] at ht
    subst ht
    exact ⟨_, _, rfl, by decide⟩
  | bool b =>
    simp only [stableStringify, jsonStringify, Option.some.injEq] at ht
    subst ht
    cases b
    · exact ⟨_, _, rfl, by decide⟩
    · exact ⟨_, _, rfl, by decide⟩
  | num n =>
    simp only [stableStringify, jsonStringify, Option.some.injEq] at ht
    subst ht
    cases n with
    | ofNat a =>
      cases hk : (Nat.repr a).data with
      | nil => exact absurd hk (repr_ne_nil a)
      | cons c tl =>
        refine ⟨c, tl, hk, ?_⟩
        have hd := repr_digits a c (by rw [hk]; exact List.mem_cons_self _ _)
        simpa [valueKind] using headKind_of_digit c hd
    | negSucc a => exact ⟨Char.ofNat 45, (Nat.repr (a + 1)).data, rfl, rfl⟩
  | dec negative s n =>
    simp only [isJson] at hj
    simp only [stableStringify, jsonStringify, Option.some.injEq] at ht
    subst ht
    rw [decText_data negative s n hj]
    cases negative with
    | true => exact ⟨Char.ofNat 45, _, rfl, rfl⟩
    | false =>
      obtain ⟨c, tl, hc, hd⟩ := decimalBody_head s n hj
      refine ⟨c, tl, by simpa using hc, ?_⟩
      simpa [valueKind] using headKind_of_digit c hd
  | str x =>
    simp only [stableStringify, jsonStringify, Option.some.injEq] at ht
    subst ht
    exact ⟨Char.ofNat 34, _, rfl, rfl⟩
  | arr xs =>
    simp only [stableStringify, Option.some.injEq] at ht
    subst ht
    exact ⟨Char.ofNat 91, _, by simp [String.data_append]; rfl, rfl⟩
  | obj es =>
    simp only [stableStringify, Option.some.injEq] at ht
    subst ht
    exact ⟨Char.ofNat 123, _, by simp [String.data_append]; rfl, rfl⟩

theorem stableItems_data : ∀ xs : List JSValue,
    (stableItems xs).map String.data =
      xs.map (fun v => (joinText (stableStringify v)).data)
  | [] => rfl
  | x :: xs => by simp [stableItems, stableItems_data xs]

theorem arr_text (xs : List JSValue) (t : String) (r : List Char)
    (h : stableStringify (.arr xs) = some t) :
    t.data ++ r =
      Char.ofNat 91 :: delimited (Char.ofNat 93) r
        (xs.map (fun v => (joinText (stableStringify v)).data)) := by
  simp only [stableStringify, Option.some.injEq] at h
  subst h
  rw [← stableItems_data, ← joinWith_data]
  simp only [String.data_append, List.append_assoc]
  rfl

theorem obj_text (es : List (String × JSValue)) (t : String) (r : List Char)
    (h : stableStringify (.obj es) = some t) :
    t.data ++ r =
      Char.ofNat 123 :: delimited (Char.ofNat 125) r
        ((sortKeys (es.map Prod.fst)).map
          (fun k => (quote k).data ++ Char.ofNat 58 :: (lookupText k (stableMembers es)).data)) := by
  simp only [stableStringify, Option.some.injEq] at h
  subst h
  have hmap : ((sortKeys (es.map Prod.fst)).map
      (fun k => quote k ++ ":" ++ lookupText k (stableMembers es))).map String.data =
      (sortKeys (es.map Prod.fst)).map
        (fun k => (quote k).data ++ Char.ofNat 58 :: (lookupText k (stableMembers es)).data) := by
    rw [List.map_map]
    apply List.map_congr_left
    intro k _
    simp only [Function.comp, String.data_append, List.append_assoc]
    rfl
  rw [← hmap, ← joinWith_data]
  simp only [String.data_append, List.append_assoc]
  rfl

theorem valueKind_json (v : JSValue) (h : isJson v = true) : valueKind v ≠ 7 := by
  cases v with
  | bool b => cases b <;> simp [valueKind]
  | _ => simp_all [valueKind, isJson]

theorem json_text_ne_close (v : JSValue) (hj : isJson v = true) (close : Char)
    (hclose : headKind close = 7) (r s : List Char) :
    (joinText (stableStringify v)).data ++ r ≠ close :: s := by
  obtain ⟨t, ht⟩ := json_has_text v hj
  obtain ⟨c, tl, hc, hk⟩ := head_kind v t hj ht
  intro h
  simp only [ht, joinText, Option.getD_some, hc, List.cons_append, List.cons.injEq] at h
  rw [h.1, hclose] at hk
  exact valueKind_json v hj hk.symm

theorem kind_eq_of_text (a b : JSValue) (ta tb : String) (r s : List Char)
    (ha : isJson a = true) (hb : isJson b = true)
    (hta : stableStringify a = some ta) (htb : stableStringify b = some tb)
    (h : ta.data ++ r = tb.data ++ s) : valueKind a = valueKind b := by
  obtain ⟨c, tl, hc, hk⟩ := head_kind a ta ha hta
  obtain ⟨c', tl', hc', hk'⟩ := head_kind b tb hb htb
  rw [hc, hc'] at h
  simp only [List.cons_append, List.cons.injEq] at h
  rw [← hk, ← hk', h.1]

theorem sameItems_of_forall₂ : ∀ xs ys : List JSValue,
    List.Forall₂ (fun x y => sameContent x y = true) xs ys → sameItems xs ys = true
  | [], [], _ => by simp [sameItems]
  | [], _ :: _, h => by cases h
  | _ :: _, [], h => by cases h
  | x :: xs, y :: ys, h => by
    cases h with
    | cons hxy hrest => simp [sameItems, hxy, sameItems_of_forall₂ xs ys hrest]

theorem lookup_of_mem_keys {k : String} :
    ∀ es : List (String × JSValue), k ∈ es.map Prod.fst → ∃ v, es.lookup k = some v
  | [], h => by simp at h
  | (k', v') :: es, h => by
    simp only [List.lookup]
    cases hk : (k == k') with
    | true => exact ⟨v', rfl⟩
    | false =>
      have hne : k ≠ k' := by simpa using hk
      simp only [List.map_cons, List.mem_cons] at h
      rcases h with h | h
      · exact absurd h hne
      · exact lookup_of_mem_keys es h

theorem mem_of_lookup {k : String} {v : JSValue} :
    ∀ es : List (String × JSValue), es.lookup k = some v → (k, v) ∈ es
  | [], h => by simp at h
  | (k', v') :: es, h => by
    simp only [List.lookup] at h
    cases hk : (k == k') with
    | true =>
      rw [hk] at h
      simp only [Option.some.injEq] at h
      have : k = k' := by simpa using hk
      subst this
      subst h
      exact List.mem_cons_self _ _
    | false =>
      rw [hk] at h
      exact List.mem_cons_of_mem _ (mem_of_lookup es h)

theorem sameMembers_intro : ∀ es fs : List (String × JSValue),
    (∀ k v, (k, v) ∈ es → ∃ w, fs.lookup k = some w ∧ sameContent v w = true) →
      sameMembers es fs = true
  | [], _, _ => by simp [sameMembers]
  | (k, v) :: es, fs, h => by
    obtain ⟨w, hw, hvw⟩ := h k v (List.mem_cons_self _ _)
    simp only [sameMembers, hw, hvw, Bool.true_and]
    exact sameMembers_intro es fs (fun k' v' hkv => h k' v' (List.mem_cons_of_mem _ hkv))

theorem forall₂_keys {Q : String → Prop} :
    ∀ ks ls : List String, List.Forall₂ (fun k l => k = l ∧ Q k) ks ls →
      ks = ls ∧ ∀ k ∈ ks, Q k
  | [], [], _ => ⟨rfl, by simp⟩
  | [], _ :: _, h => by cases h
  | _ :: _, [], h => by cases h
  | k :: ks, l :: ls, h => by
    cases h with
    | cons hkl hrest =>
      obtain ⟨heq, hq⟩ := forall₂_keys ks ls hrest
      refine ⟨by rw [hkl.1, heq], ?_⟩
      intro x hx
      rcases List.mem_cons.mp hx with rfl | hx
      · exact hkl.2
      · exact hq x hx

theorem kind_null {b : JSValue} (h : valueKind b = 0) : b = .null := by
  cases b with
  | bool y => cases y <;> simp [valueKind] at h
  | _ => simp_all [valueKind]

theorem kind_bool {b : JSValue} {x : Bool} (h : valueKind b = valueKind (.bool x)) :
    b = .bool x := by
  cases b with
  | bool y => cases y <;> cases x <;> simp_all [valueKind]
  | _ => cases x <;> simp_all [valueKind]

theorem kind_num {b : JSValue} (h : valueKind b = 3) :
    (∃ m, b = .num m) ∨ (∃ negative s n, b = .dec negative s n) := by
  cases b with
  | bool y => cases y <;> simp [valueKind] at h
  | num m => exact Or.inl ⟨m, rfl⟩
  | dec negative s n => exact Or.inr ⟨negative, s, n, rfl⟩
  | _ => simp_all [valueKind]

theorem kind_str {b : JSValue} (h : valueKind b = 4) : ∃ x, b = .str x := by
  cases b with
  | bool y => cases y <;> simp [valueKind] at h
  | _ => simp_all [valueKind]

theorem kind_arr {b : JSValue} (h : valueKind b = 5) : ∃ ys, b = .arr ys := by
  cases b with
  | bool y => cases y <;> simp [valueKind] at h
  | _ => simp_all [valueKind]

theorem kind_obj {b : JSValue} (h : valueKind b = 6) : ∃ fs, b = .obj fs := by
  cases b with
  | bool y => cases y <;> simp [valueKind] at h
  | _ => simp_all [valueKind]

theorem lookupText_of_lookup {es : List (String × JSValue)} {k : String} {v : JSValue}
    {t : String} (hl : es.lookup k = some v) (ht : stableStringify v = some t) :
    lookupText k (stableMembers es) = t := by
  simp [lookupText, lookup_stableMembers, hl, ht, concatText]

/-- The text of a JSON value, followed by anything that does not go on with a
character of a numeral, determines the value up to the order of object keys, and
determines what follows. -/
theorem stableStringify_prefix_unique : ∀ a : JSValue,
    ∀ (b : JSValue) (ta tb : String) (r s : List Char),
      isJson a = true → isJson b = true →
      stableStringify a = some ta → stableStringify b = some tb →
      noNumeralAhead r = true → noNumeralAhead s = true →
      ta.data ++ r = tb.data ++ s → sameContent a b = true ∧ r = s := by
  intro a
  induction a using JSValue.induction with
  | leaf v h5 h6 =>
    intro b ta tb r s ha hb hta htb hr hs h
    have hk := kind_eq_of_text v b ta tb r s ha hb hta htb h
    cases v with
    | undefined => simp [isJson] at ha
    | date _ => simp [isJson] at ha
    | fn _ => simp [isJson] at ha
    | arr _ => simp [valueKind] at h5
    | obj _ => simp [valueKind] at h6
    | null =>
      have hbv := kind_null hk.symm
      subst hbv
      rw [hta] at htb
      injection htb with htb
      subst htb
      exact ⟨by simp [sameContent], List.append_cancel_left h⟩
    | bool x =>
      have hbv := kind_bool hk.symm
      subst hbv
      rw [hta] at htb
      injection htb with htb
      subst htb
      exact ⟨by simp [sameContent], List.append_cancel_left h⟩
    | num n =>
      rcases kind_num hk.symm with ⟨m, hbv⟩ | ⟨neg, d, e, hbv⟩
      · subst hbv
        simp only [stableStringify, jsonStringify, Option.some.injEq] at hta htb
        subst hta htb
        obtain ⟨hnm, hrs⟩ := numText_unique n m r s (noDigitAhead_of_noNumeralAhead hr)
          (noDigitAhead_of_noNumeralAhead hs) h
        exact ⟨by simp [sameContent, hnm], hrs⟩
      · subst hbv
        simp only [isJson] at hb
        simp only [stableStringify, jsonStringify, Option.some.injEq] at hta htb
        subst hta htb
        exact absurd h (numText_ne_decText n neg d e r s hb hr hs)
    | dec neg d e =>
      simp only [isJson] at ha
      rcases kind_num hk.symm with ⟨m, hbv⟩ | ⟨neg', d', e', hbv⟩
      · subst hbv
        simp only [stableStringify, jsonStringify, Option.some.injEq] at hta htb
        subst hta htb
        exact absurd h.symm (numText_ne_decText m neg d e s r ha hs hr)
      · subst hbv
        simp only [isJson] at hb
        simp only [stableStringify, jsonStringify, Option.some.injEq] at hta htb
        subst hta htb
        obtain ⟨⟨h1, h2, h3⟩, hrs⟩ := decText_unique neg neg' d d' e e' r s ha hb hr hs h
        exact ⟨by simp [sameContent, h1, h2, h3], hrs⟩
    | str x =>
      obtain ⟨y, hbv⟩ := kind_str hk.symm
      subst hbv
      simp only [stableStringify, jsonStringify, Option.some.injEq] at hta htb
      subst hta htb
      obtain ⟨hxy, hrs⟩ := quote_unique x y r s h
      exact ⟨by simp [sameContent, hxy], hrs⟩
  | array xs ih =>
    intro b ta tb r s ha hb hta htb hr hs h
    have hk := kind_eq_of_text (.arr xs) b ta tb r s ha hb hta htb h
    obtain ⟨ys, hbv⟩ := kind_arr hk.symm
    subst hbv
    simp only [isJson] at ha hb
    rw [arr_text xs ta r hta, arr_text ys tb s htb] at h
    simp only [List.cons.injEq, true_and] at h
    obtain ⟨hf, hrs⟩ := delimited_unique
      (fun v => (joinText (stableStringify v)).data)
      (fun v => (joinText (stableStringify v)).data)
      (fun x y => sameContent x y = true) (Char.ofNat 93) (by decide) (by decide) xs ys r s
      (by
        intro x hx y hy r' s' hr' hs' hxy
        have hjx := isJson_of_mem_items xs x ha hx
        have hjy := isJson_of_mem_items ys y hb hy
        obtain ⟨tx, htx⟩ := json_has_text x hjx
        obtain ⟨ty, hty⟩ := json_has_text y hjy
        simp only [htx, hty, joinText, Option.getD_some] at hxy
        exact ih x hx y tx ty r' s' hjx hjy htx hty hr' hs' hxy)
      (fun x hx r' s' =>
        json_text_ne_close x (isJson_of_mem_items xs x ha hx) (Char.ofNat 93) (by decide) r' s')
      (fun y hy r' s' =>
        json_text_ne_close y (isJson_of_mem_items ys y hb hy) (Char.ofNat 93) (by decide) r' s')
      h
    exact ⟨by simp only [sameContent, sameItems_of_forall₂ xs ys hf], hrs⟩
  | object es ih =>
    intro b ta tb r s ha hb hta htb hr hs h
    have hk := kind_eq_of_text (.obj es) b ta tb r s ha hb hta htb h
    obtain ⟨fs, hbv⟩ := kind_obj hk.symm
    subst hbv
    simp only [isJson, Bool.and_eq_true, decide_eq_true_eq] at ha hb
    rw [obj_text es ta r hta, obj_text fs tb s htb] at h
    simp only [List.cons.injEq, true_and] at h
    have hmemE : ∀ k, k ∈ sortKeys (es.map Prod.fst) → k ∈ es.map Prod.fst :=
      fun k hk => (List.perm_insertionSort keyLe _).subset hk
    have hmemF : ∀ k, k ∈ sortKeys (fs.map Prod.fst) → k ∈ fs.map Prod.fst :=
      fun k hk => (List.perm_insertionSort keyLe _).subset hk
    have hquote : ∀ (k : String) (tl r' s' : List Char),
        ((quote k).data ++ tl) ++ r' ≠ Char.ofNat 125 :: s' := by
      intro k tl r' s' hq
      simp only [quote, List.cons_append, List.cons.injEq] at hq
      exact absurd hq.1 (by decide)
    obtain ⟨hf, hrs⟩ := delimited_unique
      (fun k => (quote k).data ++ Char.ofNat 58 :: (lookupText k (stableMembers es)).data)
      (fun k => (quote k).data ++ Char.ofNat 58 :: (lookupText k (stableMembers fs)).data)
      (fun k l => k = l ∧
        ∃ v w, es.lookup k = some v ∧ fs.lookup k = some w ∧ sameContent v w = true)
      (Char.ofNat 125) (by decide) (by decide)
      (sortKeys (es.map Prod.fst)) (sortKeys (fs.map Prod.fst)) r s
      (by
        intro k hk l hl r' s' hr' hs' hkl
        simp only [List.append_assoc, List.cons_append] at hkl
        obtain ⟨hkeq, htail⟩ := quote_unique k l _ _ hkl
        subst hkeq
        simp only [List.cons.injEq, true_and] at htail
        obtain ⟨v, hv⟩ := lookup_of_mem_keys es (hmemE k hk)
        obtain ⟨w, hw⟩ := lookup_of_mem_keys fs (hmemF k hl)
        have hjv := isJson_of_mem_members es k v ha.2 (mem_of_lookup es hv)
        have hjw := isJson_of_mem_members fs k w hb.2 (mem_of_lookup fs hw)
        obtain ⟨tv, htv⟩ := json_has_text v hjv
        obtain ⟨tw, htw⟩ := json_has_text w hjw
        rw [lookupText_of_lookup hv htv, lookupText_of_lookup hw htw] at htail
        obtain ⟨hsame, hrs'⟩ := ih (k, v) (mem_of_lookup es hv) w tv tw r' s' hjv hjw htv htw
          hr' hs' htail
        exact ⟨⟨rfl, v, w, hv, hw, hsame⟩, hrs'⟩)
      (fun k _ r' s' => hquote k _ r' s')
      (fun k _ r' s' => hquote k _ r' s')
      h
    obtain ⟨hkeys, hq⟩ := forall₂_keys _ _ hf
    have hlen : es.length = fs.length := by
      have h1 := (List.perm_insertionSort keyLe (es.map Prod.fst)).length_eq
      have h2 := (List.perm_insertionSort keyLe (fs.map Prod.fst)).length_eq
      have h3 := congrArg List.length hkeys
      simp only [sortKeys] at h3
      simp only [List.length_map] at h1 h2
      omega
    refine ⟨?_, hrs⟩
    simp only [sameContent, hlen, beq_self_eq_true, Bool.true_and]
    apply sameMembers_intro
    intro k v hkv
    have hk : k ∈ sortKeys (es.map Prod.fst) :=
      (List.perm_insertionSort keyLe _).symm.subset (List.mem_map.mpr ⟨(k, v), hkv, rfl⟩)
    obtain ⟨v', w, hv', hw, hsame⟩ := hq k hk
    have hv := lookup_of_mem_of_nodup ha.1 hkv
    rw [hv] at hv'
    injection hv' with hv'
    subst hv'
    exact ⟨w, hw, hsame⟩

/-- C11: for two JSON values `a` and `b`, if `stableStringify(a)` equals
`stableStringify(b)` then `a` and `b` have the same content, that is, they are
equal up to the order of object keys; so whenever the decoded stored value `a`
and the new value `b` differ in content, the diff reports the field as
changed. -/
theorem stableStringify_tells_json_apart (a b : JSValue)
    (ha : isJson a = true) (hb : isJson b = true) :
    (stableStringify a = stableStringify b → sameContent a b = true) ∧
      (∀ (jsonParse : String → Option JSValue) (stored : JSValue),
        parseExisting jsonParse stored = a → sameContent a b = false →
          fieldChanged jsonParse stored b = true) := by
  have hinj : stableStringify a = stableStringify b → sameContent a b = true := by
    intro h
    obtain ⟨ta, hta⟩ := json_has_text a ha
    obtain ⟨tb, htb⟩ := json_has_text b hb
    have hab : ta = tb := by
      rw [hta, htb] at h
      injection h
    exact (stableStringify_prefix_unique a b ta tb [] [] ha hb hta htb rfl rfl
      (by rw [hab])).1
  refine ⟨hinj, ?_⟩
  intro jsonParse stored hstored hdiff
  simp only [fieldChanged, hstored, bne_iff_ne, ne_eq]
  intro h
  rw [hinj h] at hdiff
  exact absurd hdiff (by simp)

/-- C11, at two objects that hold the same keys in different orders, with the
number 1.5 and the number `10^21` among their values, and differ in one array: the
texts differ, and the diff reports the change. -/
theorem stableStringify_tells_json_apart_witness :
    isJson (.obj [("x", .dec false 15 1), ("y", .arr [.str "a,b", .dec false 1 22])]) = true ∧
      isJson (.obj [("y", .arr [.str "a", .str "b", .dec false 1 22]),
        ("x", .dec false 15 1)]) = true ∧
      sameContent (.obj [("x", .dec false 15 1), ("y", .arr [.str "a,b", .dec false 1 22])])
        (.obj [("y", .arr [.str "a", .str "b", .dec false 1 22]),
          ("x", .dec false 15 1)]) = false ∧
      stableStringify (.obj [("x", .dec false 15 1), ("y", .arr [.str "a,b", .dec false 1 22])])
        = some "\x7b\"x\":1.5,\"y\":[\"a,b\",1e+21]\x7d" ∧
      ((stableStringify
            (.obj [("x", .dec false 15 1), ("y", .arr [.str "a,b", .dec false 1 22])]) =
          stableStringify (.obj [("y", .arr [.str "a", .str "b", .dec false 1 22]),
            ("x", .dec false 15 1)]) →
        sameContent (.obj [("x", .dec false 15 1), ("y", .arr [.str "a,b", .dec false 1 22])])
          (.obj [("y", .arr [.str "a", .str "b", .dec false 1 22]),
            ("x", .dec false 15 1)]) = true) ∧
        (∀ (jsonParse : String → Option JSValue) (stored : JSValue),
          parseExisting jsonParse stored =
            .obj [("x", .dec false 15 1), ("y", .arr [.str "a,b", .dec false 1 22])] →
          sameContent
            (.obj [("x", .dec false 15 1), ("y", .arr [.str "a,b", .dec false 1 22])])
            (.obj [("y", .arr [.str "a", .str "b", .dec false 1 22]),
              ("x", .dec false 15 1)]) = false →
          fieldChanged jsonParse stored
            (.obj [("y", .arr [.str "a", .str "b", .dec false 1 22]),
              ("x", .dec false 15 1)]) = true)) :=
  ⟨by decide, by decide, by decide, by decide,
    stableStringify_tells_json_apart _ _ (by decide) (by decide)⟩

end GmbDataPoller
